import Mathlib

/-!
Verification development for the DynamoDB GSI manager
(`cdk-ddb-multi-gsi`): a shallow embedding of the shared domain model
(`lib/types/gsi-types.ts`), the operation planner
(`lambda/gsi-manager/src/operation-planner.ts`), the ownership resolver and
property parsing (`lambda/gsi-manager/src/gsi-config-utils.ts`), the retry
layer (`lambda/gsi-manager/src/error-handling.ts`) and the two asynchronous
custom-resource entry points (`onEventHandler` in
`lambda/gsi-manager/src/handler.ts` and `isCompleteHandler` in
`lambda/gsi-manager/src/is-complete-handler.ts`), together with theorems
settling the specification's claims about them.

Modelling conventions: TypeScript numbers on the throughput fields are
modelled as `Int` (they are integral capacity units); JavaScript `Map`s are
modelled by their access semantics (last write wins); each handler
invocation reads one coherent store snapshot, and the non-blocking
describe-based probes answer from that snapshot.
-/

/-- The `AttributeTypeCode` from `lib/types/gsi-types.ts`: `"S" | "N" | "B"`. -/
inductive AttributeTypeCode where
  | S
  | N
  | B
deriving DecidableEq, Repr

/-- The `ProjectionType` from `lib/types/gsi-types.ts`. -/
inductive ProjectionType where
  | ALL
  | KEYS_ONLY
  | INCLUDE
deriving DecidableEq, Repr

/-- Key role in a key schema element: `"HASH" | "RANGE"`. -/
inductive KeyType where
  | HASH
  | RANGE
deriving DecidableEq, Repr

/-- The `AttributeDefinition` from `lib/types/gsi-types.ts`. -/
structure AttributeDefinition where
  name : String
  type : AttributeTypeCode
deriving DecidableEq, Repr

/-- The `ProvisionedThroughput` from `lib/types/gsi-types.ts`. -/
structure ProvisionedThroughput where
  readCapacityUnits : Int
  writeCapacityUnits : Int
deriving DecidableEq, Repr

/-- The `GSIConfiguration` (desired state) from `lib/types/gsi-types.ts`. -/
structure GSIConfiguration where
  indexName : String
  partitionKey : AttributeDefinition
  sortKey : Option AttributeDefinition
  projectionType : Option ProjectionType
  nonKeyAttributes : Option (List String)
  provisionedThroughput : Option ProvisionedThroughput
deriving DecidableEq, Repr

/-- One `keySchema` entry of `GSIInfo`. -/
structure KeySchemaElement where
  attributeName : String
  keyType : KeyType
deriving DecidableEq, Repr

/-- The `projection` field of `GSIInfo`. -/
structure GSIProjection where
  projectionType : ProjectionType
  nonKeyAttributes : Option (List String)
deriving DecidableEq, Repr

/-- The `GSIInfo` (observed state) from `lib/types/gsi-types.ts`. -/
structure GSIInfo where
  indexName : String
  keySchema : List KeySchemaElement
  projection : GSIProjection
  indexStatus : Option String
  provisionedThroughput : Option ProvisionedThroughput
deriving DecidableEq, Repr

/-- The `GSIOperationType` from `lib/types/gsi-types.ts`. -/
inductive GSIOperationType where
  | CREATE
  | UPDATE
  | DELETE
deriving DecidableEq, Repr

/-- The `GSIOperation` from `lib/types/gsi-types.ts`. -/
structure GSIOperation where
  type : GSIOperationType
  indexName : String
  desiredConfiguration : Option GSIConfiguration
  currentConfiguration : Option GSIInfo
deriving DecidableEq, Repr

/-- The `ErrorHandlingConfig` from `lib/types/gsi-types.ts`. -/
structure ErrorHandlingConfig where
  maxRetries : Nat
  baseDelayMs : Nat
  maxDelayMs : Nat
  retryableErrorCodes : List String
deriving DecidableEq, Repr

/-- The `Partial<ErrorHandlingConfig>` as used by `mergeErrorHandlingConfig`. -/
structure PartialErrorHandlingConfig where
  maxRetries : Option Nat
  baseDelayMs : Option Nat
  maxDelayMs : Option Nat
  retryableErrorCodes : Option (List String)
deriving DecidableEq, Repr

/-- The `GSIManagerProps` from `lib/types/gsi-types.ts`. -/
structure GSIManagerProps where
  tableName : String
  globalSecondaryIndexes : List GSIConfiguration
  errorHandling : Option PartialErrorHandlingConfig
deriving DecidableEq, Repr

/-- The `DEFAULT_ERROR_CONFIG` from `lib/types/gsi-types.ts`. -/
def DEFAULT_ERROR_CONFIG : ErrorHandlingConfig :=
  { maxRetries := 5
  , baseDelayMs := 1000
  , maxDelayMs := 30000
  , retryableErrorCodes :=
      [ "ThrottlingException"
      , "ProvisionedThroughputExceededException"
      , "ResourceInUseException" ] }

/-- The `mergeErrorHandlingConfig` from `lib/types/gsi-types.ts`. -/
def mergeErrorHandlingConfig
    (override : Option PartialErrorHandlingConfig) : ErrorHandlingConfig :=
  match override with
  | none => DEFAULT_ERROR_CONFIG
  | some ov =>
    { maxRetries := ov.maxRetries.getD DEFAULT_ERROR_CONFIG.maxRetries
    , baseDelayMs := ov.baseDelayMs.getD DEFAULT_ERROR_CONFIG.baseDelayMs
    , maxDelayMs := ov.maxDelayMs.getD DEFAULT_ERROR_CONFIG.maxDelayMs
    , retryableErrorCodes :=
        ov.retryableErrorCodes.getD DEFAULT_ERROR_CONFIG.retryableErrorCodes }

/-- Truthiness test `!value?.trim()` of the source: the string is empty or all-whitespace
(equivalently, trimming leaves the empty string), phrased over the character
list so it evaluates. -/
def isBlankString (s : String) : Bool :=
  s.data.all (fun c => c.isWhitespace)

/-- The issue strings produced for one configuration's name by
`validateGsiConfigurations` (missing vs duplicate `indexName`). -/
def nameIssues (seen : List String) (position : Nat)
    (config : GSIConfiguration) : List String :=
  if isBlankString config.indexName then
    ["GSI at position " ++ toString position ++ " is missing indexName."]
  else if seen.contains config.indexName then
    ["GSI \"" ++ config.indexName ++ "\" is defined more than once."]
  else
    []

/-- The `checkAttribute` helper inside `validateGsiConfigurations`.  The
attribute's `type` field is the typed enum, so the invalid-type branch of the
source is unreachable in this embedding (the parser only ever produces valid
codes). -/
def attributeIssues (config : GSIConfiguration)
    (attr : Option AttributeDefinition) (role : String) : List String :=
  match attr with
  | none =>
    if role = "partitionKey" then
      ["GSI \"" ++ config.indexName ++ "\" does not define partitionKey."]
    else
      []
  | some a =>
    if isBlankString a.name then
      ["GSI \"" ++ config.indexName ++ "\" " ++ role
        ++ " is missing attribute name."]
    else
      []

/-- The `validateGsiConfigurations` from `lib/types/gsi-types.ts`, accumulating
the `seenNames` set and the position index along the fold exactly as the
source's `forEach` does. -/
def validateGsiConfigurations
    (configurations : List GSIConfiguration) : List String :=
  (configurations.foldl
    (fun acc config =>
      let issues := acc.1
      let seen := acc.2.1
      let position := acc.2.2
      let newIssues := issues
        ++ nameIssues seen position config
        ++ attributeIssues config (some config.partitionKey) "partitionKey"
        ++ attributeIssues config config.sortKey "sortKey"
      let newSeen :=
        if isBlankString config.indexName then seen
        else if seen.contains config.indexName then seen
        else seen ++ [config.indexName]
      (newIssues, newSeen, position + 1))
    (([] : List String), ([] : List String), 0)).1

/-- The `toKeySchemaMap` from `operation-planner.ts`: a JavaScript `Map` built by
inserting every key-schema entry; re-inserting an existing attribute name
overwrites its value in place, a new name is appended. -/
def insertKeySchema (m : List (String × KeyType)) (k : String) (v : KeyType) :
    List (String × KeyType) :=
  if m.any (fun p => p.1 = k) then
    m.map (fun p => if p.1 = k then (k, v) else p)
  else
    m ++ [(k, v)]

/-- The key-schema map of an observed index (insertion-ordered association
list with unique keys). -/
def toKeySchemaMap (info : GSIInfo) : List (String × KeyType) :=
  info.keySchema.foldl (fun m e => insertKeySchema m e.attributeName e.keyType) []

/-- The `arraysEqualIgnoreOrder` from `operation-planner.ts`: equal lengths and
every element of `b` is a member of `a`. -/
def arraysEqualIgnoreOrder (a b : List String) : Bool :=
  a.length = b.length && b.all (fun v => a.contains v)

/-- The `projectionChanged` from `operation-planner.ts`. -/
def projectionChanged (current : GSIInfo) (desired : GSIConfiguration) : Bool :=
  let currentProjection := current.projection.projectionType
  let desiredProjection := desired.projectionType.getD ProjectionType.ALL
  if currentProjection ≠ desiredProjection then
    true
  else if desiredProjection = ProjectionType.INCLUDE then
    !arraysEqualIgnoreOrder
      (current.projection.nonKeyAttributes.getD [])
      (desired.nonKeyAttributes.getD [])
  else
    false

/-- The `keySchemaChanged` from `operation-planner.ts`. -/
def keySchemaChanged (current : GSIInfo) (desired : GSIConfiguration) : Bool :=
  let schema := toKeySchemaMap current
  let desiredSort := desired.sortKey.map (fun a => a.name)
  if schema.lookup desired.partitionKey.name ≠ some KeyType.HASH then
    true
  else
    let currentSortEntry := schema.find? (fun p => p.2 = KeyType.RANGE)
    match desiredSort, currentSortEntry with
    | none, some _ => true
    | some _, none => true
    | some s, some e => decide (e.1 ≠ s)
    | none, none => false

/-- The `shouldUpdateThroughput` from `operation-planner.ts`. -/
def shouldUpdateThroughput (current : GSIInfo) (desired : GSIConfiguration) :
    Bool :=
  match desired.provisionedThroughput with
  | none => false
  | some dt =>
    match current.provisionedThroughput with
    | none => true
    | some ct =>
      decide (ct.readCapacityUnits ≠ dt.readCapacityUnits)
        || decide (ct.writeCapacityUnits ≠ dt.writeCapacityUnits)

/-- The `new Map(current.map(gsi => [gsi.indexName, gsi])).get(name)`: the last
index in `current` carrying `name` wins, `none` when the name is absent. -/
def currentMapGet (current : List GSIInfo) (name : String) : Option GSIInfo :=
  current.foldl
    (fun acc g => if g.indexName = name then some g else acc) none

/-- The `planGsiOperations` from `operation-planner.ts`, with the source's two
`forEach`/`push` passes rendered as two left folds over an accumulator. -/
def planGsiOperations (current : List GSIInfo)
    (desired : List GSIConfiguration) : List GSIOperation :=
  let afterDeletes := current.foldl
    (fun ops g =>
      if desired.any (fun d => d.indexName = g.indexName) then
        ops
      else
        ops ++ [{ type := GSIOperationType.DELETE
                , indexName := g.indexName
                , desiredConfiguration := none
                , currentConfiguration := some g }])
    ([] : List GSIOperation)
  desired.foldl
    (fun ops config =>
      match currentMapGet current config.indexName with
      | none =>
        ops ++ [{ type := GSIOperationType.CREATE
                , indexName := config.indexName
                , desiredConfiguration := some config
                , currentConfiguration := none }]
      | some existing =>
        if keySchemaChanged existing config || projectionChanged existing config then
          ops ++ [{ type := GSIOperationType.DELETE
                  , indexName := existing.indexName
                  , desiredConfiguration := none
                  , currentConfiguration := some existing }
                , { type := GSIOperationType.CREATE
                  , indexName := config.indexName
                  , desiredConfiguration := some config
                  , currentConfiguration := none }]
        else if shouldUpdateThroughput existing config then
          ops ++ [{ type := GSIOperationType.UPDATE
                  , indexName := config.indexName
                  , desiredConfiguration := some config
                  , currentConfiguration := some existing }]
        else
          ops)
    afterDeletes

/-- CloudFormation request type as received by both handlers. -/
inductive RequestType where
  | Create
  | Update
  | Delete
deriving DecidableEq, Repr

/-- The `collectManagedNames` from `gsi-config-utils.ts`.  The JavaScript `Set`
is modelled by the list of inserted names; only membership and emptiness are
ever consumed, and both are insensitive to duplicates. -/
def collectManagedNames (desired : List GSIConfiguration)
    (prior : Option (List GSIConfiguration)) : List String :=
  desired.map (fun gsi => gsi.indexName)
    ++ (prior.getD []).map (fun gsi => gsi.indexName)

/-- Result record of `resolveCurrentForPlanning`. -/
structure ResolveResult where
  candidates : List GSIInfo
  adoptedLegacyIndexes : Bool
  untrackedCount : Nat
deriving DecidableEq, Repr

/-- The `resolveCurrentForPlanning` from `gsi-config-utils.ts`. -/
def resolveCurrentForPlanning (requestType : RequestType)
    (current : List GSIInfo) (managedNames : List String) : ResolveResult :=
  if managedNames.isEmpty then
    { candidates := current
    , adoptedLegacyIndexes :=
        requestType ≠ RequestType.Create && current.length > 0
    , untrackedCount := current.length }
  else
    let tracked := current.filter (fun gsi => managedNames.contains gsi.indexName)
    let untracked := current.filter (fun gsi => !managedNames.contains gsi.indexName)
    let shouldAdopt :=
      (requestType = RequestType.Update || requestType = RequestType.Delete)
        && untracked.length > 0
    { candidates := if shouldAdopt then current else tracked
    , adoptedLegacyIndexes := shouldAdopt
    , untrackedCount := untracked.length }

/-- One coherent observed store snapshot for a single handler invocation:
the described index list and the table-level activity flag. -/
structure Snapshot where
  gsis : List GSIInfo
  tableActive : Bool
deriving DecidableEq, Repr

/-- Target argument of the index-status probe. -/
inductive TargetStatus where
  | ACTIVE
  | DELETED
deriving DecidableEq, Repr

/-- Modelled from the spec: `isIndexInStatus` of the Store Adapter
(`dynamodb-gsi-service.ts`, not included under `src/`): non-blocking; for
DELETED, true iff the index is absent from the listing; for ACTIVE, true iff
present with matching status. -/
def isGSIInStatus (s : Snapshot) (indexName : String)
    (target : TargetStatus) : Bool :=
  match target with
  | TargetStatus.DELETED => !(s.gsis.any (fun g => g.indexName = indexName))
  | TargetStatus.ACTIVE =>
    match s.gsis.find? (fun g => g.indexName = indexName) with
    | some g => g.indexStatus = some "ACTIVE"
    | none => false

/-- Modelled from the spec: `isTableStable` of the Store Adapter
(`dynamodb-gsi-service.ts`, not included under `src/`): single non-blocking
describe, true iff the table-level status is the stable/active state. -/
def isTableActive (s : Snapshot) : Bool :=
  s.tableActive

/-- A mutating store call issued by a handler (`UpdateTableCommand` with a
Create / Update / Delete GSI update in `dynamodb-gsi-service.ts`). -/
inductive StoreMutation where
  | createIdx (config : GSIConfiguration)
  | updateIdx (config : GSIConfiguration)
  | deleteIdx (indexName : String)
deriving DecidableEq, Repr

/-- Outcome of one handler invocation: the mutating store calls it issued, in
order, the `IsComplete` flag it reported (`none` when it threw), and the fatal
error message when it threw. -/
structure RunResult where
  mutations : List StoreMutation
  isComplete : Option Bool
  error : Option String
deriving DecidableEq, Repr

/-- Helper `startOperation` from `is-complete-handler.ts` / `handler.ts`: waits for
table stability (modelled as a fatal timeout when the snapshot's table is not
active), then issues the single mutation for the operation.  `updateGSI`
returns without any store call when the desired configuration carries no
provisioned throughput.  The `default` (unknown operation type) branch of the
source is unreachable over the typed operation enum. -/
def startOperation (s : Snapshot) (operation : GSIOperation) :
    Except String (List StoreMutation) :=
  if !isTableActive s then
    Except.error "Timed out waiting for table to become ACTIVE"
  else
    match operation.type with
    | GSIOperationType.DELETE =>
      Except.ok [StoreMutation.deleteIdx operation.indexName]
    | GSIOperationType.CREATE =>
      match operation.desiredConfiguration with
      | none =>
        Except.error
          ("CREATE operation missing desiredConfiguration for "
            ++ operation.indexName)
      | some config => Except.ok [StoreMutation.createIdx config]
    | GSIOperationType.UPDATE =>
      match operation.desiredConfiguration with
      | none =>
        Except.error
          ("UPDATE operation missing desiredConfiguration for "
            ++ operation.indexName)
      | some config =>
        if config.provisionedThroughput.isNone then
          Except.ok []
        else
          Except.ok [StoreMutation.updateIdx config]

/-- Helper `checkOperationComplete` from `is-complete-handler.ts`: the table must be
active and the operation's index must have reached its target status (DELETED
for a DELETE operation, ACTIVE otherwise). -/
def checkOperationComplete (s : Snapshot) (operation : GSIOperation) : Bool :=
  if !isTableActive s then
    false
  else
    let targetStatus :=
      if operation.type = GSIOperationType.DELETE then TargetStatus.DELETED
      else TargetStatus.ACTIVE
    isGSIInStatus s operation.indexName targetStatus

/-- Observed status values that signal an in-flight index mutation. -/
def inFlight (g : GSIInfo) : Bool :=
  g.indexStatus = some "CREATING"
    || g.indexStatus = some "UPDATING"
    || g.indexStatus = some "DELETING"

/-- The managed-name set an entry point computes from its properties: the
prior configuration contributes only on Update requests with old properties
present. -/
def handlerManagedNames (requestType : RequestType) (props : GSIManagerProps)
    (oldProps : Option GSIManagerProps) : List String :=
  collectManagedNames props.globalSecondaryIndexes
    (match requestType, oldProps with
     | RequestType.Update, some old => some old.globalSecondaryIndexes
     | _, _ => none)

/-- The Delete branch of `isCompleteHandler` from `is-complete-handler.ts`,
acting on the resolved candidate list. -/
def isCompleteDeleteBranch (s : Snapshot)
    (existingManaged : List GSIInfo) : RunResult :=
  match existingManaged with
  | [] => { mutations := [], isComplete := some true, error := none }
  | gsi :: rest =>
    if isGSIInStatus s gsi.indexName TargetStatus.DELETED then
      if rest.length + 1 > 1 then
        { mutations := [], isComplete := some false, error := none }
      else
        { mutations := [], isComplete := some true, error := none }
    else if gsi.indexStatus ≠ some "DELETING" then
      if isTableActive s then
        { mutations := [StoreMutation.deleteIdx gsi.indexName]
        , isComplete := some false, error := none }
      else
        { mutations := [], isComplete := some false, error := none }
    else
      { mutations := [], isComplete := some false, error := none }

/-- Lifts a `startOperation` outcome into the enclosing invocation's result
(the handler reports IsComplete=false after starting, or rethrows). -/
def afterStart (started : Except String (List StoreMutation)) : RunResult :=
  match started with
  | Except.ok ms => { mutations := ms, isComplete := some false, error := none }
  | Except.error e => { mutations := [], isComplete := none, error := some e }

/-- The Create/Update branch of `isCompleteHandler` once no resolved candidate
is in flight: recompute the plan and act on its first operation. -/
def isCompletePlanStep (s : Snapshot) (current : List GSIInfo)
    (operations : List GSIOperation) : RunResult :=
  match operations with
  | [] => { mutations := [], isComplete := some true, error := none }
  | operation :: rest =>
    if checkOperationComplete s operation then
      if rest.length + 1 > 1 then
        { mutations := [], isComplete := some false, error := none }
      else
        { mutations := [], isComplete := some true, error := none }
    else
      let currentGSI := current.find? (fun g => g.indexName = operation.indexName)
      match operation.type with
      | GSIOperationType.CREATE =>
        match currentGSI with
        | none => afterStart (startOperation s operation)
        | some _ => { mutations := [], isComplete := some false, error := none }
      | GSIOperationType.DELETE =>
        match currentGSI with
        | some g =>
          if g.indexStatus ≠ some "DELETING" then
            afterStart (startOperation s operation)
          else
            { mutations := [], isComplete := some false, error := none }
        | none => { mutations := [], isComplete := some false, error := none }
      | GSIOperationType.UPDATE =>
        afterStart (startOperation s operation)

/-- Entry point `isCompleteHandler` from `is-complete-handler.ts`, as a function of the
parsed properties and one observed snapshot. -/
def isCompleteRun (requestType : RequestType) (props : GSIManagerProps)
    (oldProps : Option GSIManagerProps) (s : Snapshot) : RunResult :=
  let managedNames := handlerManagedNames requestType props oldProps
  let current := s.gsis
  let resolved := resolveCurrentForPlanning requestType current managedNames
  let managedCurrent := resolved.candidates
  if requestType = RequestType.Delete then
    isCompleteDeleteBranch s managedCurrent
  else
    match managedCurrent.find? inFlight with
    | some _ => { mutations := [], isComplete := some false, error := none }
    | none =>
      isCompletePlanStep s current
        (planGsiOperations managedCurrent props.globalSecondaryIndexes)

/-- The fatal message `handler.ts` builds from the validation issues:
`["Invalid GSI configuration detected:", ...errors].join("\n- ")`. -/
def validationErrorMessage (issues : List String) : String :=
  String.intercalate "\n- " ("Invalid GSI configuration detected:" :: issues)

/-- Entry point `onEventHandler` from `handler.ts` (asynchronous pattern), as a function
of the parsed properties and one observed snapshot: Create/Update validates
and then starts at most the first planned operation; Delete starts the first
candidate deletion without validating. -/
def onEventRun (requestType : RequestType) (props : GSIManagerProps)
    (oldProps : Option GSIManagerProps) (s : Snapshot) : RunResult :=
  if requestType = RequestType.Delete then
    let managedNames := collectManagedNames props.globalSecondaryIndexes none
    let targets :=
      (resolveCurrentForPlanning requestType s.gsis managedNames).candidates
    match targets with
    | [] => { mutations := [], isComplete := some true, error := none }
    | gsi :: _ =>
      afterStart (startOperation s
        { type := GSIOperationType.DELETE
        , indexName := gsi.indexName
        , desiredConfiguration := none
        , currentConfiguration := some gsi })
  else
    let issues := validateGsiConfigurations props.globalSecondaryIndexes
    if issues.isEmpty then
      let managedNames := handlerManagedNames requestType props oldProps
      let resolved := resolveCurrentForPlanning requestType s.gsis managedNames
      let operations :=
        planGsiOperations resolved.candidates props.globalSecondaryIndexes
      match operations with
      | [] => { mutations := [], isComplete := some true, error := none }
      | firstOperation :: _ => afterStart (startOperation s firstOperation)
    else
      { mutations := []
      , isComplete := none
      , error := some (validationErrorMessage issues) }

/-- The error shape `getErrorCode` in `error-handling.ts` inspects: an
optional structured `code` field and an optional `name` field. -/
structure JSError where
  code : Option String
  name : Option String
deriving DecidableEq, Repr

/-- The `getErrorCode` from `error-handling.ts`: the `code` field when it is a
non-empty string, else the `name` field when non-empty, else nothing. -/
def getErrorCode (error : JSError) : Option String :=
  match error.code with
  | some c =>
    if c.length > 0 then some c
    else match error.name with
      | some n => if n.length > 0 then some n else none
      | none => none
  | none =>
    match error.name with
    | some n => if n.length > 0 then some n else none
    | none => none

/-- The `shouldRetry` from `error-handling.ts`. -/
def shouldRetry (error : JSError) (config : ErrorHandlingConfig)
    (customRetryRule : Option (JSError → Bool)) : Bool :=
  match customRetryRule with
  | some rule => rule error
  | none =>
    match getErrorCode error with
    | none => false
    | some code => config.retryableErrorCodes.contains code

/-- The `addJitter` from `error-handling.ts`.  `jitterSample` stands for the value
drawn by `randomInt(0, jitterRange)` (so callers constrain it to be below the
range); `Math.floor(baseDelay * 0.2)` equals `baseDelay / 5` on the integral
delays that occur. -/
def addJitter (jitterSample : Nat) (baseDelay : Nat) : Nat :=
  let jitterRange := baseDelay / 5
  if jitterRange = 0 then baseDelay
  else baseDelay + jitterSample

/-- Trace of one `retryWithBackoff` run: how many times the wrapped operation
was invoked, the slept delays in order, and the final outcome (the returned
value or the re-raised last error). -/
structure RetryTrace (T : Type) where
  calls : Nat
  sleeps : List Nat
  outcome : Except (Option JSError) T
deriving Repr

/-- The retry loop of `retryWithBackoff` from `error-handling.ts`.  `op k` is
the outcome of the operation's invocation at attempt `k`; `jitterSamples k` is
the jitter drawn before the sleep that follows a failed attempt `k`.  The
`while (attempt <= maxRetries)` loop is driven by the fuel
`maxRetries + 1 - attempt`, which the source's `attempt += 1` keeps positive
until the final attempt breaks. -/
def retryLoop {T : Type} (op : Nat → Except JSError T)
    (config : ErrorHandlingConfig) (customRetryRule : Option (JSError → Bool))
    (jitterSamples : Nat → Nat) :
    Nat → Nat → Nat → RetryTrace T
  | 0, _, _ => { calls := 0, sleeps := [], outcome := Except.error none }
  | fuel + 1, attempt, delay =>
    match op attempt with
    | Except.ok t => { calls := 1, sleeps := [], outcome := Except.ok t }
    | Except.error e =>
      if attempt = config.maxRetries
          || !shouldRetry e config customRetryRule then
        { calls := 1, sleeps := [], outcome := Except.error (some e) }
      else
        let slept := addJitter (jitterSamples attempt) (min delay config.maxDelayMs)
        let tail := retryLoop op config customRetryRule jitterSamples
          fuel (attempt + 1) (min (delay * 2) config.maxDelayMs)
        { calls := tail.calls + 1
        , sleeps := slept :: tail.sleeps
        , outcome := tail.outcome }

/-- The `retryWithBackoff` from `error-handling.ts`: run the loop from attempt 0
with the base delay. -/
def retryWithBackoff {T : Type} (op : Nat → Except JSError T)
    (config : ErrorHandlingConfig) (customRetryRule : Option (JSError → Bool))
    (jitterSamples : Nat → Nat) : RetryTrace T :=
  retryLoop op config customRetryRule jitterSamples
    (config.maxRetries + 1) 0 config.baseDelayMs

/-- The capped exponential delay before retry `k + 1`:
`min(baseDelayMs * 2^k, maxDelayMs)`. -/
def cappedDelay (config : ErrorHandlingConfig) (k : Nat) : Nat :=
  min (config.baseDelayMs * 2 ^ k) config.maxDelayMs

/-- A JavaScript value as it appears in a CloudFormation property bag.
Objects are insertion-ordered key/value lists with unique keys; numbers carry
the integral values that occur in these property bags. -/
inductive JSValue where
  | str (s : String)
  | num (n : Int)
  | boolean (b : Bool)
  | null
  | arr (elems : List JSValue)
  | obj (fields : List (String × JSValue))
deriving Repr

/-- Own-property test `Object.prototype.hasOwnProperty.call(record, key)`. -/
def hasOwn (record : List (String × JSValue)) (key : String) : Bool :=
  record.any (fun p => p.1 = key)

/-- Reading `record[key]` for an own property. -/
def getOwn (record : List (String × JSValue)) (key : String) : Option JSValue :=
  (record.find? (fun p => p.1 = key)).map (fun p => p.2)

/-- PascalCase variant `key.charAt(0).toUpperCase() + key.slice(1)`. -/
def pascalCase (key : String) : String :=
  match key.data with
  | [] => ""
  | c :: rest => String.mk (c.toUpper :: rest)

/-- The `pickVariant` from `gsi-config-utils.ts`: camelCase key first, PascalCase
variant only when the camelCase key is absent. -/
def pickVariant (record : Option (List (String × JSValue))) (key : String) :
    Option JSValue :=
  match record with
  | none => none
  | some r =>
    if hasOwn r key then getOwn r key
    else if hasOwn r (pascalCase key) then getOwn r (pascalCase key)
    else none

/-- The `toArrayOfStrings` from `gsi-config-utils.ts`. -/
def toArrayOfStrings (value : Option JSValue) : Option (List String) :=
  match value with
  | some (JSValue.arr elems) =>
    let values := elems.filterMap (fun entry =>
      match entry with
      | JSValue.str s => if s = "" then none else some s
      | _ => none)
    if values.length > 0 then some values else none
  | _ => none

/-- Attribute type codes as the strings "S" | "N" | "B". -/
def decodeAttributeType (v : Option JSValue) : Option AttributeTypeCode :=
  match v with
  | some (JSValue.str "S") => some AttributeTypeCode.S
  | some (JSValue.str "N") => some AttributeTypeCode.N
  | some (JSValue.str "B") => some AttributeTypeCode.B
  | _ => none

/-- The `parseAttribute` from `gsi-config-utils.ts`. -/
def parseAttribute (value : Option JSValue) (fallbackType : AttributeTypeCode) :
    AttributeDefinition :=
  match value with
  | some (JSValue.obj record) =>
    let name := pickVariant (some record) "name"
    let type := pickVariant (some record) "type"
    { name := match name with | some (JSValue.str s) => s | _ => ""
    , type := (decodeAttributeType type).getD fallbackType }
  | _ => { name := "", type := fallbackType }

/-- Character-list whitespace trim (what `Number`'s string conversion
ignores), phrased so it evaluates. -/
def trimWS (s : String) : String :=
  String.mk
    (((s.data.dropWhile (fun c => c.isWhitespace)).reverse.dropWhile
      (fun c => c.isWhitespace)).reverse)

/-- Conversion `Number(value)` restricted to the shapes that occur in capacity fields;
conversions that would produce NaN are collapsed to `none` (and such a
throughput pair is then dropped, as a NaN capacity cannot be represented on
the integral model). -/
def jsToNumber (value : JSValue) : Option Int :=
  match value with
  | JSValue.num n => some n
  | JSValue.str s =>
    if trimWS s = "" then some 0 else (trimWS s).toInt?
  | JSValue.boolean b => some (if b then 1 else 0)
  | JSValue.null => some 0
  | _ => none

/-- The `parseProvisionedThroughput` from `gsi-config-utils.ts`: both capacities
must be present (after camel/Pascal resolution and numeric coercion). -/
def parseProvisionedThroughput (value : Option JSValue) :
    Option ProvisionedThroughput :=
  match value with
  | some (JSValue.obj record) =>
    let read := pickVariant (some record) "readCapacityUnits"
    let write := pickVariant (some record) "writeCapacityUnits"
    match read.bind jsToNumber, write.bind jsToNumber with
    | some r, some w => some { readCapacityUnits := r, writeCapacityUnits := w }
    | _, _ => none
  | _ => none

/-- The projection-type validation inside `parseGsiConfigs` (only the three
valid strings survive). -/
def decodeProjectionType (v : Option JSValue) : Option ProjectionType :=
  match v with
  | some (JSValue.str "ALL") => some ProjectionType.ALL
  | some (JSValue.str "KEYS_ONLY") => some ProjectionType.KEYS_ONLY
  | some (JSValue.str "INCLUDE") => some ProjectionType.INCLUDE
  | _ => none

/-- Truthiness of a property-bag value (`sortKey ? ... : undefined`). -/
def isTruthy (v : JSValue) : Bool :=
  match v with
  | JSValue.str s => s ≠ ""
  | JSValue.num n => n ≠ 0
  | JSValue.boolean b => b
  | JSValue.null => false
  | JSValue.arr _ => true
  | JSValue.obj _ => true

/-- The `parseGsiConfigs` from `gsi-config-utils.ts`. -/
def parseGsiConfigs (value : Option JSValue) : List GSIConfiguration :=
  match value with
  | some (JSValue.arr entries) =>
    entries.map (fun entry =>
      let record :=
        match entry with
        | JSValue.obj fields => fields
        | _ => []
      let indexNameValue := pickVariant (some record) "indexName"
      let sortKey := pickVariant (some record) "sortKey"
      { indexName :=
          match indexNameValue with | some (JSValue.str s) => s | _ => ""
      , partitionKey :=
          parseAttribute (pickVariant (some record) "partitionKey")
            AttributeTypeCode.S
      , sortKey :=
          match sortKey with
          | some v =>
            if isTruthy v then
              some (parseAttribute (some v) AttributeTypeCode.S)
            else none
          | none => none
      , projectionType :=
          decodeProjectionType (pickVariant (some record) "projectionType")
      , nonKeyAttributes :=
          toArrayOfStrings (pickVariant (some record) "nonKeyAttributes")
      , provisionedThroughput :=
          parseProvisionedThroughput
            (pickVariant (some record) "provisionedThroughput") })
  | _ => []

/-- The `errorHandling` cast in `parseManagerProps`: kept when it is an
object, dropped otherwise.  The partial config's own fields are read off the
object (absent fields are `none`). -/
def parseErrorHandling (value : Option JSValue) :
    Option PartialErrorHandlingConfig :=
  match value with
  | some (JSValue.obj record) =>
    some
      { maxRetries :=
          (getOwn record "maxRetries").bind jsToNumber |>.map Int.toNat
      , baseDelayMs :=
          (getOwn record "baseDelayMs").bind jsToNumber |>.map Int.toNat
      , maxDelayMs :=
          (getOwn record "maxDelayMs").bind jsToNumber |>.map Int.toNat
      , retryableErrorCodes :=
          match getOwn record "retryableErrorCodes" with
          | some (JSValue.arr elems) =>
            some (elems.filterMap (fun e =>
              match e with | JSValue.str s => some s | _ => none))
          | _ => none }
  | _ => none

/-- The `parseManagerProps` from `gsi-config-utils.ts`. -/
def parseManagerProps (props : List (String × JSValue)) : GSIManagerProps :=
  let tableNameSource := pickVariant (some props) "tableName"
  let errorHandlingSource := pickVariant (some props) "errorHandling"
  { tableName :=
      match tableNameSource with | some (JSValue.str s) => s | _ => ""
  , globalSecondaryIndexes :=
      parseGsiConfigs (pickVariant (some props) "globalSecondaryIndexes")
  , errorHandling := parseErrorHandling errorHandlingSource }

/-- The latest observed index carrying `name` (the access semantics of the
planner's `currentMap`), phrased declaratively. -/
def latestNamed (current : List GSIInfo) (name : String) : Option GSIInfo :=
  (current.filter (fun g => g.indexName = name)).getLast?

/-- Deletions-for-removed-indexes as the specification words them: one DELETE
for every index present in `current` whose name is absent from `desired`, in
the order those indexes appear in `current`. -/
def planDeletions (current : List GSIInfo)
    (desired : List GSIConfiguration) : List GSIOperation :=
  (current.filter
      (fun g => !desired.any (fun d => d.indexName = g.indexName))).map
    (fun g =>
      { type := GSIOperationType.DELETE
      , indexName := g.indexName
      , desiredConfiguration := none
      , currentConfiguration := some g })

/-- The per-desired-entry decision as the specification words it: a CREATE if
no current index has its name; a DELETE of the current config immediately
followed by a CREATE of the desired config if the key schema or the
projection changed; a single UPDATE if only throughput changed; nothing if
already converged. -/
def planEntry (current : List GSIInfo) (config : GSIConfiguration) :
    List GSIOperation :=
  match latestNamed current config.indexName with
  | none =>
    [{ type := GSIOperationType.CREATE
     , indexName := config.indexName
     , desiredConfiguration := some config
     , currentConfiguration := none }]
  | some existing =>
    if keySchemaChanged existing config || projectionChanged existing config then
      [ { type := GSIOperationType.DELETE
        , indexName := existing.indexName
        , desiredConfiguration := none
        , currentConfiguration := some existing }
      , { type := GSIOperationType.CREATE
        , indexName := config.indexName
        , desiredConfiguration := some config
        , currentConfiguration := none } ]
    else if shouldUpdateThroughput existing config then
      [{ type := GSIOperationType.UPDATE
       , indexName := config.indexName
       , desiredConfiguration := some config
       , currentConfiguration := some existing }]
    else
      []

/-- The planner's contract as the specification words it: removals first, in
current order, then the per-desired-entry decisions in desired order. -/
def planSpec (current : List GSIInfo) (desired : List GSIConfiguration) :
    List GSIOperation :=
  planDeletions current desired
    ++ desired.flatMap (fun config => planEntry current config)

/-- The key schema `createGSI` submits for a configuration
(`toKeySchema` in `dynamodb-gsi-service.ts`): HASH then optional RANGE. -/
def materializeKeySchema (config : GSIConfiguration) : List KeySchemaElement :=
  { attributeName := config.partitionKey.name, keyType := KeyType.HASH }
    :: (match config.sortKey with
        | some sk => [{ attributeName := sk.name, keyType := KeyType.RANGE }]
        | none => [])

/-- The projection `createGSI` submits and the describe call echoes back
(`toProjection` in `dynamodb-gsi-service.ts`): non-key attributes only for a
non-empty INCLUDE list. -/
def materializeProjection (config : GSIConfiguration) : GSIProjection :=
  let projectionType := config.projectionType.getD ProjectionType.ALL
  { projectionType := projectionType
  , nonKeyAttributes :=
      if projectionType = ProjectionType.INCLUDE
          && !(config.nonKeyAttributes.getD []).isEmpty then
        config.nonKeyAttributes
      else
        none }

/-- The observed index a completed CREATE of `config` settles into (status
ACTIVE, schema and projection as submitted, throughput as requested). -/
def configToInfo (config : GSIConfiguration) : GSIInfo :=
  { indexName := config.indexName
  , keySchema := materializeKeySchema config
  , projection := materializeProjection config
  , indexStatus := some "ACTIVE"
  , provisionedThroughput := config.provisionedThroughput }

/-- Effect of one completed planned operation on the observed index list:
DELETE removes the named index, CREATE appends its materialized index, UPDATE
rewrites the named index's provisioned throughput. -/
def applyOperation (st : List GSIInfo) (op : GSIOperation) : List GSIInfo :=
  match op.type with
  | GSIOperationType.DELETE =>
    st.filter (fun g => g.indexName ≠ op.indexName)
  | GSIOperationType.CREATE =>
    match op.desiredConfiguration with
    | some config => st ++ [configToInfo config]
    | none => st
  | GSIOperationType.UPDATE =>
    match op.desiredConfiguration with
    | some config =>
      st.map (fun g =>
        if g.indexName = op.indexName then
          { g with provisionedThroughput := config.provisionedThroughput }
        else g)
    | none => st

/-- Effect of a whole operation list, applied in order. -/
def applyPlan (st : List GSIInfo) (ops : List GSIOperation) : List GSIInfo :=
  ops.foldl applyOperation st

/-- The indexes a plan cycle removes outright: present in `current`, absent
from `desired`. -/
def removedCount (current : List GSIInfo) (desired : List GSIConfiguration) :
    Nat :=
  (current.filter
    (fun g => !desired.any (fun d => d.indexName = g.indexName))).length

/-- A desired configuration whose materialized index the planner recognizes
as converged: the sort key (when present) names a different attribute than
the partition key. -/
def wfConfig (config : GSIConfiguration) : Bool :=
  match config.sortKey with
  | some sk => sk.name ≠ config.partitionKey.name
  | none => true

/-- A desired list the convergence argument applies to: every entry is
well-formed and index names are pairwise distinct. -/
def wfDesired (desired : List GSIConfiguration) : Prop :=
  (∀ c ∈ desired, wfConfig c = true)
    ∧ (desired.map (fun c => c.indexName)).Nodup


/-- A fold that appends a block per element is the flat map of its blocks. -/
theorem foldl_emit {α β : Type} (f : β → List α) (step : List α → β → List α)
    (h : ∀ ops x, step ops x = ops ++ f x) :
    ∀ (l : List β) (acc : List α), l.foldl step acc = acc ++ l.flatMap f := by
  intro l
  induction l with
  | nil =>
    intro acc
    rw [List.foldl_nil, List.flatMap_nil, List.append_nil]
  | cons x xs ih =>
    intro acc
    rw [List.foldl_cons, h, ih, List.flatMap_cons, List.append_assoc]

/-- Searching with `find?` returns the head of the filtered list. -/
theorem find?_eq_head?_filter {α : Type} (p : α → Bool) :
    ∀ l : List α, l.find? p = (l.filter p).head? := by
  intro l
  induction l with
  | nil => rfl
  | cons x xs ih =>
    rw [List.filter_cons]
    by_cases hx : p x = true
    · rw [List.find?_cons_of_pos xs hx, if_pos hx, List.head?_cons]
    · rw [List.find?_cons_of_neg xs hx, if_neg hx, ih]

/-- The planner's `currentMap.get`: the last index in `current` whose name
matches wins. -/
theorem currentMapGet_eq_latestNamed (current : List GSIInfo) (name : String) :
    currentMapGet current name = latestNamed current name := by
  have h : ∀ (l : List GSIInfo) (acc : Option GSIInfo),
      l.foldl (fun acc g => if g.indexName = name then some g else acc) acc
        = match (l.filter (fun g => g.indexName = name)).getLast? with
          | some x => some x
          | none => acc := by
    intro l
    induction l with
    | nil => intro acc; rfl
    | cons g gs ih =>
      intro acc
      rw [List.foldl_cons, ih, List.filter_cons]
      by_cases hg : g.indexName = name
      · rw [if_pos hg, if_pos (by simp [hg]), List.getLast?_cons]
        cases hgs : (gs.filter (fun g => g.indexName = name)).getLast? with
        | some x => simp [hgs]
        | none => simp [hgs]
      · rw [if_neg hg, if_neg (by simp [hg])]
  have h2 := h current none
  unfold currentMapGet latestNamed
  rw [h2]
  cases (current.filter (fun g => g.indexName = name)).getLast? <;> rfl

/-- Unfolding `planDeletions` over a cons cell. -/
theorem planDeletions_cons (g : GSIInfo) (gs : List GSIInfo)
    (desired : List GSIConfiguration) :
    planDeletions (g :: gs) desired
      = (if desired.any (fun d => d.indexName = g.indexName) then
           ([] : List GSIOperation)
         else
           [{ type := GSIOperationType.DELETE
            , indexName := g.indexName
            , desiredConfiguration := none
            , currentConfiguration := some g }])
        ++ planDeletions gs desired := by
  unfold planDeletions
  rw [List.filter_cons]
  by_cases hd : desired.any (fun d => d.indexName = g.indexName) = true
  · rw [if_neg (by simp [hd]), if_pos hd]
    rfl
  · simp only [Bool.not_eq_true] at hd
    rw [if_pos (by simp [hd]), if_neg (by simp [hd]), List.map_cons]
    rfl

/-- The two accumulating passes of `planGsiOperations` produce exactly the
specification-shaped plan: removals first, then per-entry decisions. -/
theorem planGsiOperations_eq_planSpec (current : List GSIInfo)
    (desired : List GSIConfiguration) :
    planGsiOperations current desired = planSpec current desired := by
  unfold planGsiOperations planSpec
  have hdel : ∀ (l : List GSIInfo) (acc : List GSIOperation),
      l.foldl
        (fun ops g =>
          if desired.any (fun d => d.indexName = g.indexName) then ops
          else ops ++ [{ type := GSIOperationType.DELETE
                       , indexName := g.indexName
                       , desiredConfiguration := none
                       , currentConfiguration := some g }])
        acc
        = acc ++ planDeletions l desired := by
    intro l
    induction l with
    | nil =>
      intro acc
      unfold planDeletions
      simp
    | cons g gs ih =>
      intro acc
      rw [List.foldl_cons, planDeletions_cons]
      by_cases hd : desired.any (fun d => d.indexName = g.indexName) = true
      · rw [if_pos hd, if_pos hd, ih, List.nil_append]
      · simp only [Bool.not_eq_true] at hd
        rw [if_neg (by simp [hd]), if_neg (by simp [hd]), ih,
          List.append_assoc]
  rw [hdel current []]
  rw [List.nil_append]
  exact foldl_emit (planEntry current) _
    (by
      intro ops config
      rw [planEntry, ← currentMapGet_eq_latestNamed]
      cases hcg : currentMapGet current config.indexName with
      | none => rfl
      | some existing =>
        dsimp only
        by_cases hc :
            (keySchemaChanged existing config
              || projectionChanged existing config) = true
        · rw [if_pos hc, if_pos hc]
        · rw [if_neg hc, if_neg hc]
          by_cases ht : shouldUpdateThroughput existing config = true
          · rw [if_pos ht, if_pos ht]
          · rw [if_neg ht, if_neg ht, List.append_nil])
    desired (planDeletions current desired)

/-- A pre-existing active observed index used by concrete scenarios. -/
def obsForeign : GSIInfo :=
  { indexName := "G0"
  , keySchema := [{ attributeName := "PK", keyType := KeyType.HASH }]
  , projection := { projectionType := ProjectionType.ALL, nonKeyAttributes := none }
  , indexStatus := some "ACTIVE"
  , provisionedThroughput := none }

/-- C2.  The claim's Create half fails on the code: with an empty
`managedNames` set, `resolveCurrentForPlanning` returns every observed index
as a candidate for all request kinds (the source's empty-managed branch
returns `candidates: current` unconditionally), so a Create request does not
exclude the observed indexes; the Update/Delete half (adopted = true,
candidates = all observed) does hold.  This evaluates the resolver at the
failing input. -/
theorem c2_resolver_empty_managed_eval :
    resolveCurrentForPlanning RequestType.Create [obsForeign] []
      = { candidates := [obsForeign]
        , adoptedLegacyIndexes := false
        , untrackedCount := 1 }
    ∧ resolveCurrentForPlanning RequestType.Update [obsForeign] []
      = { candidates := [obsForeign]
        , adoptedLegacyIndexes := true
        , untrackedCount := 1 }
    ∧ resolveCurrentForPlanning RequestType.Delete [obsForeign] []
      = { candidates := [obsForeign]
        , adoptedLegacyIndexes := true
        , untrackedCount := 1 } := by
  refine ⟨?_, ?_, ?_⟩ <;> rfl

/-- C3 counterexample: the default retryable set does not contain the
limit-exceeded code the claim requires (nor the request-limit,
too-many-requests, internal-server-error or service-unavailable codes), and
it does contain `ResourceInUseException`, which answers to none of the
claim's seven error classes. -/
theorem c3_counterexample :
    DEFAULT_ERROR_CONFIG.retryableErrorCodes.contains "LimitExceededException"
        = false
    ∧ DEFAULT_ERROR_CONFIG.retryableErrorCodes.contains "InternalServerError"
        = false
    ∧ DEFAULT_ERROR_CONFIG.retryableErrorCodes.contains "ServiceUnavailable"
        = false
    ∧ DEFAULT_ERROR_CONFIG.retryableErrorCodes.contains "ResourceInUseException"
        = true := by
  refine ⟨?_, ?_, ?_, ?_⟩ <;> rfl

/-- C3 amended: the default error-handling configuration (used whenever no
override is supplied, and as the fallback of `mergeErrorHandlingConfig`) has
a `retryableErrorCodes` set containing exactly three codes — throttling,
provisioned-throughput-exceeded and resource-in-use. -/
theorem c3_amended :
    DEFAULT_ERROR_CONFIG.retryableErrorCodes
        = [ "ThrottlingException"
          , "ProvisionedThroughputExceededException"
          , "ResourceInUseException" ]
    ∧ mergeErrorHandlingConfig none = DEFAULT_ERROR_CONFIG
    ∧ ∀ ov : PartialErrorHandlingConfig, ov.retryableErrorCodes = none →
        (mergeErrorHandlingConfig (some ov)).retryableErrorCodes
          = DEFAULT_ERROR_CONFIG.retryableErrorCodes := by
  refine ⟨rfl, rfl, ?_⟩
  intro ov hov
  simp [mergeErrorHandlingConfig, hov]

/-- Witness for C3's amended theorem at a concrete override. -/
theorem c3_amended_witness :
    (mergeErrorHandlingConfig
        (some { maxRetries := some 3
              , baseDelayMs := none
              , maxDelayMs := none
              , retryableErrorCodes := none })).retryableErrorCodes
      = DEFAULT_ERROR_CONFIG.retryableErrorCodes :=
  c3_amended.2.2
    { maxRetries := some 3
    , baseDelayMs := none
    , maxDelayMs := none
    , retryableErrorCodes := none } rfl

/-- C5: the planner is the pure function the claim describes — removal
deletions first in current order, then per-desired-entry decisions in
desired order, with DELETE-then-CREATE on schema/projection changes, a
single UPDATE on throughput-only changes and nothing when converged
(`planSpec` spells out exactly that emission order). -/
theorem c5_plan_emission_order :
    ∀ (current : List GSIInfo) (desired : List GSIConfiguration),
      planGsiOperations current desired = planSpec current desired :=
  planGsiOperations_eq_planSpec

/-- Membership-as-Bool is invariant under permutation of the list. -/
theorem contains_perm {a a2 : List String} (h : a.Perm a2) (v : String) :
    a.contains v = a2.contains v := by
  rw [Bool.eq_iff_iff, List.elem_iff, List.elem_iff]
  exact h.mem_iff

/-- The `arraysEqualIgnoreOrder` is invariant under permutation of its second
argument. -/
theorem arraysEqualIgnoreOrder_perm_right (a : List String) {b b2 : List String}
    (h : b.Perm b2) :
    arraysEqualIgnoreOrder a b = arraysEqualIgnoreOrder a b2 := by
  unfold arraysEqualIgnoreOrder
  rw [h.length_eq]
  have hall : b.all (fun v => a.contains v) = b2.all (fun v => a.contains v) := by
    rw [Bool.eq_iff_iff, List.all_eq_true, List.all_eq_true]
    constructor
    · intro hb x hx
      exact hb x (h.mem_iff.mpr hx)
    · intro hb x hx
      exact hb x (h.mem_iff.mp hx)
  rw [hall]

/-- The `arraysEqualIgnoreOrder` is invariant under permutation of its first
argument. -/
theorem arraysEqualIgnoreOrder_perm_left {a a2 : List String} (b : List String)
    (h : a.Perm a2) :
    arraysEqualIgnoreOrder a b = arraysEqualIgnoreOrder a2 b := by
  unfold arraysEqualIgnoreOrder
  rw [h.length_eq]
  have hall : b.all (fun v => a.contains v) = b.all (fun v => a2.contains v) := by
    rw [Bool.eq_iff_iff, List.all_eq_true, List.all_eq_true]
    constructor
    · intro hb x hx
      rw [← contains_perm h]
      exact hb x hx
    · intro hb x hx
      rw [contains_perm h]
      exact hb x hx
  rw [hall]

/-- On duplicate-free lists, `arraysEqualIgnoreOrder` coincides with equality
of the underlying finite sets. -/
theorem arraysEqualIgnoreOrder_nodup_iff {a b : List String}
    (ha : a.Nodup) (hb : b.Nodup) :
    arraysEqualIgnoreOrder a b = true ↔ a.toFinset = b.toFinset := by
  unfold arraysEqualIgnoreOrder
  rw [Bool.and_eq_true, decide_eq_true_eq, List.all_eq_true]
  constructor
  · rintro ⟨hlen, hmem⟩
    have hsub : b.toFinset ⊆ a.toFinset := by
      intro x hx
      rw [List.mem_toFinset] at hx ⊢
      have := hmem x hx
      rwa [List.elem_iff] at this
    have hcard : a.toFinset.card ≤ b.toFinset.card := by
      rw [List.toFinset_card_of_nodup ha, List.toFinset_card_of_nodup hb]
      exact Nat.le_of_eq hlen
    exact (Finset.eq_of_subset_of_card_le hsub hcard).symm
  · intro hfin
    constructor
    · rw [← List.toFinset_card_of_nodup ha, ← List.toFinset_card_of_nodup hb,
        hfin]
    · intro x hx
      rw [List.elem_iff]
      have : x ∈ b.toFinset := List.mem_toFinset.mpr hx
      rw [← hfin] at this
      exact List.mem_toFinset.mp this

/-- An observed INCLUDE index projecting the attributes `a`, `b`. -/
def incObserved : GSIInfo :=
  { indexName := "G"
  , keySchema := [{ attributeName := "PK", keyType := KeyType.HASH }]
  , projection :=
      { projectionType := ProjectionType.INCLUDE
      , nonKeyAttributes := some ["a", "b"] }
  , indexStatus := some "ACTIVE"
  , provisionedThroughput := none }

/-- A desired INCLUDE configuration for `incObserved` with the given non-key
attribute list. -/
def incDesired (nonKey : List String) : GSIConfiguration :=
  { indexName := "G"
  , partitionKey := { name := "PK", type := AttributeTypeCode.S }
  , sortKey := none
  , projectionType := some ProjectionType.INCLUDE
  , nonKeyAttributes := some nonKey
  , provisionedThroughput := none }

/-- C7 counterexample: two desired INCLUDE configurations whose non-key
attribute lists have the same underlying set (`{"a"}`) get different
`projectionChanged` verdicts against the same observed index, because the
source also compares list lengths — so the result does not depend only on
the sets of attribute names on each side. -/
theorem c7_counterexample :
    (["a", "a"] : List String).toFinset = (["a"] : List String).toFinset
    ∧ projectionChanged incObserved (incDesired ["a", "a"]) = false
    ∧ projectionChanged incObserved (incDesired ["a"]) = true := by
  refine ⟨by decide, by decide, by decide⟩

/-- C7 amended: `projectionChanged` is order-insensitive — invariant under
permutation of the desired and of the current non-key attribute list (in
particular current `["a","b"]` against desired `["b","a"]` gives `false`) —
and on duplicate-free lists the INCLUDE comparison depends only on the sets
of attribute names on each side (it holds iff the two sets are equal). -/
theorem c7_amended :
    (∀ (cur : GSIInfo) (des : GSIConfiguration) (l1 l2 : List String),
      l1.Perm l2 →
        projectionChanged cur
            { des with nonKeyAttributes := some l1 }
          = projectionChanged cur
              { des with nonKeyAttributes := some l2 })
    ∧ (∀ (cur : GSIInfo) (des : GSIConfiguration) (l1 l2 : List String),
      l1.Perm l2 →
        projectionChanged
            { cur with projection :=
                { projectionType := cur.projection.projectionType
                , nonKeyAttributes := some l1 } } des
          = projectionChanged
              { cur with projection :=
                  { projectionType := cur.projection.projectionType
                  , nonKeyAttributes := some l2 } } des)
    ∧ (∀ (a b : List String), a.Nodup → b.Nodup →
        (arraysEqualIgnoreOrder a b = true ↔ a.toFinset = b.toFinset))
    ∧ projectionChanged incObserved (incDesired ["b", "a"]) = false := by
  refine ⟨?_, ?_, ?_, by decide⟩
  · intro cur des l1 l2 h
    unfold projectionChanged
    simp only [Option.getD_some]
    rw [arraysEqualIgnoreOrder_perm_right _ h]
  · intro cur des l1 l2 h
    unfold projectionChanged
    simp only [Option.getD_some]
    rw [arraysEqualIgnoreOrder_perm_left _ h]
  · intro a b ha hb
    exact arraysEqualIgnoreOrder_nodup_iff ha hb

/-- Witness for C7's amended theorem at concrete lists. -/
theorem c7_amended_witness :
    projectionChanged incObserved (incDesired ["a", "b"])
      = projectionChanged incObserved (incDesired ["b", "a"]) :=
  c7_amended.1 incObserved (incDesired ["a", "b"]) ["a", "b"] ["b", "a"]
    (List.Perm.swap "b" "a" [])

/-- A looked-up latest index carries the looked-up name. -/
theorem latestNamed_name {current : List GSIInfo} {n : String} {e : GSIInfo}
    (h : latestNamed current n = some e) : e.indexName = n := by
  unfold latestNamed at h
  have hmem := List.mem_of_mem_getLast? h
  exact of_decide_eq_true (List.mem_filter.mp hmem).2

/-- Shape of every operation a per-entry decision emits. -/
theorem planEntry_shapes {current : List GSIInfo} {c : GSIConfiguration}
    {op : GSIOperation} (h : op ∈ planEntry current c) :
    op.indexName = c.indexName
    ∧ ((op.type = GSIOperationType.CREATE
          ∧ op.desiredConfiguration = some c ∧ op.currentConfiguration = none)
        ∨ (op.type = GSIOperationType.DELETE
          ∧ op.desiredConfiguration = none ∧ (∃ e, op.currentConfiguration = some e))
        ∨ (op.type = GSIOperationType.UPDATE
          ∧ op.desiredConfiguration = some c
          ∧ (∃ e, op.currentConfiguration = some e))) := by
  unfold planEntry at h
  cases hl : latestNamed current c.indexName with
  | none =>
    rw [hl] at h
    rw [List.mem_singleton] at h
    subst h
    exact ⟨rfl, Or.inl ⟨rfl, rfl, rfl⟩⟩
  | some existing =>
    rw [hl] at h
    dsimp only at h
    have hname := latestNamed_name hl
    by_cases hc :
        (keySchemaChanged existing c || projectionChanged existing c) = true
    · rw [if_pos hc] at h
      simp only [List.mem_cons, List.mem_singleton, List.not_mem_nil,
        or_false] at h
      rcases h with rfl | rfl
      · exact ⟨hname, Or.inr (Or.inl ⟨rfl, rfl, existing, rfl⟩)⟩
      · exact ⟨rfl, Or.inl ⟨rfl, rfl, rfl⟩⟩
    · rw [if_neg hc] at h
      by_cases ht : shouldUpdateThroughput existing c = true
      · rw [if_pos ht] at h
        rw [List.mem_singleton] at h
        subst h
        exact ⟨rfl, Or.inr (Or.inr ⟨rfl, rfl, existing, rfl⟩)⟩
      · rw [if_neg ht] at h
        cases h

/-- Shape of every removal deletion. -/
theorem planDeletions_shapes {current : List GSIInfo}
    {desired : List GSIConfiguration} {op : GSIOperation}
    (h : op ∈ planDeletions current desired) :
    op.type = GSIOperationType.DELETE
    ∧ op.desiredConfiguration = none
    ∧ (∃ g, op.currentConfiguration = some g ∧ op.indexName = g.indexName)
    ∧ desired.any (fun d => d.indexName = op.indexName) = false := by
  unfold planDeletions at h
  rw [List.mem_map] at h
  obtain ⟨g, hg, rfl⟩ := h
  rw [List.mem_filter] at hg
  refine ⟨rfl, rfl, ⟨g, rfl, rfl⟩, ?_⟩
  have := hg.2
  simpa using this

/-- C9: every operation emitted by `planGsiOperations` is well-formed —
CREATE and UPDATE operations carry a `desiredConfiguration`, DELETE and
UPDATE operations carry a `currentConfiguration` — and consequently, on an
active table, `startOperation` never reaches its missing-configuration (or
unknown-type) error branches on a planned operation. -/
theorem c9_planned_ops_well_formed :
    ∀ (current : List GSIInfo) (desired : List GSIConfiguration)
      (op : GSIOperation), op ∈ planGsiOperations current desired →
      ((op.type = GSIOperationType.CREATE ∨ op.type = GSIOperationType.UPDATE)
          → op.desiredConfiguration.isSome = true)
      ∧ ((op.type = GSIOperationType.DELETE ∨ op.type = GSIOperationType.UPDATE)
          → op.currentConfiguration.isSome = true)
      ∧ (∀ s : Snapshot, isTableActive s = true →
          ∃ ms, startOperation s op = Except.ok ms) := by
  intro current desired op hmem
  rw [planGsiOperations_eq_planSpec] at hmem
  unfold planSpec at hmem
  rw [List.mem_append] at hmem
  have hstart : ∀ s : Snapshot, isTableActive s = true →
      op.type = GSIOperationType.DELETE
        ∨ op.desiredConfiguration.isSome = true →
      ∃ ms, startOperation s op = Except.ok ms := by
    intro s hs hshape
    unfold startOperation
    rw [hs]
    simp only [Bool.not_true, Bool.false_eq_true, if_false]
    cases htype : op.type with
    | DELETE => exact ⟨_, rfl⟩
    | CREATE =>
      rcases hshape with h | h
      · rw [htype] at h; cases h
      · cases hd : op.desiredConfiguration with
        | none => rw [hd] at h; cases h
        | some config => exact ⟨_, rfl⟩
    | UPDATE =>
      rcases hshape with h | h
      · rw [htype] at h; cases h
      · cases hd : op.desiredConfiguration with
        | none => rw [hd] at h; cases h
        | some config =>
          dsimp only
          by_cases hp : config.provisionedThroughput.isNone = true
          · rw [if_pos hp]; exact ⟨_, rfl⟩
          · rw [if_neg hp]; exact ⟨_, rfl⟩
  cases hmem with
  | inl hdel =>
    obtain ⟨htype, hdes, ⟨g, hcur, _⟩, _⟩ := planDeletions_shapes hdel
    refine ⟨?_, ?_, ?_⟩
    · intro h
      rw [htype] at h
      rcases h with h | h <;> cases h
    · intro _
      rw [hcur]
      rfl
    · intro s hs
      exact hstart s hs (Or.inl htype)
  | inr hent =>
    rw [List.mem_flatMap] at hent
    obtain ⟨c, _, hop⟩ := hent
    obtain ⟨_, hshape⟩ := planEntry_shapes hop
    rcases hshape with ⟨htype, hdes, hcur⟩ | ⟨htype, hdes, e, hcur⟩
      | ⟨htype, hdes, e, hcur⟩
    · refine ⟨?_, ?_, ?_⟩
      · intro _; rw [hdes]; rfl
      · intro h
        rw [htype] at h
        rcases h with h | h <;> cases h
      · intro s hs
        exact hstart s hs (Or.inr (by rw [hdes]; rfl))
    · refine ⟨?_, ?_, ?_⟩
      · intro h
        rw [htype] at h
        rcases h with h | h <;> cases h
      · intro _; rw [hcur]; rfl
      · intro s hs
        exact hstart s hs (Or.inl htype)
    · refine ⟨?_, ?_, ?_⟩
      · intro _; rw [hdes]; rfl
      · intro _; rw [hcur]; rfl
      · intro s hs
        exact hstart s hs (Or.inr (by rw [hdes]; rfl))

/-- Scenario 1's desired configuration (a fresh simple index). -/
def gsi1Cfg : GSIConfiguration :=
  { indexName := "GSI1"
  , partitionKey := { name := "PK1", type := AttributeTypeCode.S }
  , sortKey := none
  , projectionType := none
  , nonKeyAttributes := none
  , provisionedThroughput := none }

/-- Witness for C9 at the concrete plan of scenario 1. -/
theorem c9_witness :
    ({ type := GSIOperationType.CREATE
     , indexName := "GSI1"
     , desiredConfiguration := some gsi1Cfg
     , currentConfiguration := none } : GSIOperation).desiredConfiguration.isSome
      = true :=
  (c9_planned_ops_well_formed [] [gsi1Cfg]
    { type := GSIOperationType.CREATE
    , indexName := "GSI1"
    , desiredConfiguration := some gsi1Cfg
    , currentConfiguration := none }
    (by decide)).1 (Or.inl rfl)

/-- C10: property parsing resolves each field camelCase-first — whenever the
camelCase key is an own property (in particular when both casings are
present), `pickVariant` returns the camelCase value and `parseManagerProps`
builds its fields from it — and when neither casing of any field is present
the parse falls back to the defaults: empty table name, empty index list, no
error-handling override. -/
theorem c10_parse_casing :
    (∀ (bag : List (String × JSValue)) (key : String),
      hasOwn bag key = true → pickVariant (some bag) key = getOwn bag key)
    ∧ (∀ bag : List (String × JSValue), hasOwn bag "tableName" = true →
        (parseManagerProps bag).tableName
          = (match getOwn bag "tableName" with
             | some (JSValue.str s) => s
             | _ => ""))
    ∧ (∀ bag : List (String × JSValue),
        hasOwn bag "globalSecondaryIndexes" = true →
        (parseManagerProps bag).globalSecondaryIndexes
          = parseGsiConfigs (getOwn bag "globalSecondaryIndexes"))
    ∧ (∀ bag : List (String × JSValue),
        hasOwn bag "tableName" = false → hasOwn bag "TableName" = false →
        hasOwn bag "globalSecondaryIndexes" = false →
        hasOwn bag "GlobalSecondaryIndexes" = false →
        hasOwn bag "errorHandling" = false →
        hasOwn bag "ErrorHandling" = false →
        parseManagerProps bag
          = { tableName := ""
            , globalSecondaryIndexes := []
            , errorHandling := none }) := by
  have hpick : ∀ (bag : List (String × JSValue)) (key : String),
      hasOwn bag key = true → pickVariant (some bag) key = getOwn bag key := by
    intro bag key h
    unfold pickVariant
    dsimp only
    rw [if_pos h]
  have hmiss : ∀ (bag : List (String × JSValue)) (key : String),
      hasOwn bag key = false → hasOwn bag (pascalCase key) = false →
      pickVariant (some bag) key = none := by
    intro bag key h1 h2
    unfold pickVariant
    dsimp only
    rw [if_neg (by simp [h1]), if_neg (by simp [h2])]
  refine ⟨hpick, ?_, ?_, ?_⟩
  · intro bag h
    unfold parseManagerProps
    rw [hpick bag "tableName" h]
  · intro bag h
    unfold parseManagerProps
    rw [hpick bag "globalSecondaryIndexes" h]
  · intro bag h1 h2 h3 h4 h5 h6
    have e1 : pascalCase "tableName" = "TableName" := rfl
    have e2 : pascalCase "globalSecondaryIndexes" = "GlobalSecondaryIndexes" :=
      rfl
    have e3 : pascalCase "errorHandling" = "ErrorHandling" := rfl
    unfold parseManagerProps
    rw [hmiss bag "tableName" h1 (by rw [e1]; exact h2),
      hmiss bag "globalSecondaryIndexes" h3 (by rw [e2]; exact h4),
      hmiss bag "errorHandling" h5 (by rw [e3]; exact h6)]
    rfl

/-- Witness for C10 at a bag carrying both casings of every field. -/
theorem c10_witness :
    pickVariant
        (some [ ("tableName", JSValue.str "camel")
              , ("TableName", JSValue.str "pascal") ]) "tableName"
      = getOwn
          [ ("tableName", JSValue.str "camel")
          , ("TableName", JSValue.str "pascal") ] "tableName" :=
  c10_parse_casing.1
    [ ("tableName", JSValue.str "camel")
    , ("TableName", JSValue.str "pascal") ] "tableName" rfl


/-- Progressive capping equals capping the uncapped exponential. -/
theorem min_doubling_cap (x m : Nat) :
    ∀ j, min (min (x * 2) m * 2 ^ j) m = min (x * 2 * 2 ^ j) m := by
  intro j
  have hpow : 0 < 2 ^ j := Nat.pos_pow_of_pos j (by norm_num)
  rcases Nat.le_total (x * 2) m with h | h
  · rw [Nat.min_eq_left h]
  · rw [Nat.min_eq_right h]
    have h1 : m ≤ m * 2 ^ j := Nat.le_mul_of_pos_right m hpow
    have h2 : m ≤ x * 2 * 2 ^ j :=
      le_trans h (Nat.le_mul_of_pos_right _ hpow)
    rw [Nat.min_eq_right h1, Nat.min_eq_right h2]

/-- Jitter bounds: the slept duration lies between the capped delay and 1.2
times the capped delay. -/
theorem addJitter_bounds (j b : Nat) (hj : b / 5 ≠ 0 → j < b / 5) :
    b ≤ addJitter j b ∧ 5 * addJitter j b ≤ 6 * b := by
  unfold addJitter
  by_cases h5 : b / 5 = 0
  · rw [if_pos h5]
    omega
  · rw [if_neg h5]
    have := hj h5
    omega

/-- Full behaviour of the retry loop under its invariant: the fuel is what
remains of the attempt budget, and capping the running doubled delay agrees
with capping the exponential. -/
theorem retryLoop_spec {T : Type} (op : Nat → Except JSError T)
    (config : ErrorHandlingConfig) (custom : Option (JSError → Bool))
    (jit : Nat → Nat)
    (hjit : ∀ k, cappedDelay config k / 5 ≠ 0 →
      jit k < cappedDelay config k / 5) :
    ∀ (fuel attempt delay : Nat),
      fuel = config.maxRetries + 1 - attempt →
      attempt ≤ config.maxRetries →
      (∀ j, min (delay * 2 ^ j) config.maxDelayMs
            = cappedDelay config (attempt + j)) →
      (1 ≤ (retryLoop op config custom jit fuel attempt delay).calls
        ∧ (retryLoop op config custom jit fuel attempt delay).calls ≤ fuel)
      ∧ (retryLoop op config custom jit fuel attempt delay).sleeps.length + 1
          = (retryLoop op config custom jit fuel attempt delay).calls
      ∧ (∀ k : Nat,
          k < (retryLoop op config custom jit fuel attempt delay).sleeps.length →
          cappedDelay config (attempt + k)
              ≤ (retryLoop op config custom jit fuel attempt delay).sleeps.getD k 0
            ∧ 5 * (retryLoop op config custom jit fuel attempt delay).sleeps.getD k 0
              ≤ 6 * cappedDelay config (attempt + k))
      ∧ (∀ e, (retryLoop op config custom jit fuel attempt delay).outcome
            = Except.error (some e) →
          op (attempt + (retryLoop op config custom jit fuel attempt delay).calls - 1)
              = Except.error e
            ∧ (attempt + (retryLoop op config custom jit fuel attempt delay).calls - 1
                  = config.maxRetries
                ∨ shouldRetry e config custom = false))
      ∧ (∀ v, (retryLoop op config custom jit fuel attempt delay).outcome
            = Except.ok v →
          op (attempt + (retryLoop op config custom jit fuel attempt delay).calls - 1)
              = Except.ok v) := by
  intro fuel
  induction fuel with
  | zero =>
    intro attempt delay hfuel hatt hdelay
    omega
  | succ fuel ih =>
    intro attempt delay hfuel hatt hdelay
    simp only [retryLoop]
    cases hop : op attempt with
    | ok t =>
      dsimp only
      refine ⟨⟨le_refl 1, by omega⟩, rfl, ?_, ?_, ?_⟩
      · intro k hk
        simp at hk
      · intro e he
        cases he
      · intro v hv
        have hv2 : t = v := by
          injection hv
        subst hv2
        simpa using hop
    | error e =>
      by_cases hbreak :
          (decide (attempt = config.maxRetries)
            || !shouldRetry e config custom) = true
      · dsimp only
        rw [if_pos hbreak]
        dsimp only
        refine ⟨⟨le_refl 1, by omega⟩, rfl, ?_, ?_, ?_⟩
        · intro k hk
          simp at hk
        · intro e2 he2
          have he2' : e = e2 := by
            have := Option.some.inj (by injection he2)
            exact this
          subst he2'
          refine ⟨by simpa using hop, ?_⟩
          rcases Bool.or_eq_true_iff.mp hbreak with h | h
          · left
            have := of_decide_eq_true h
            omega
          · right
            simpa using h
        · intro v hv
          cases hv
      · dsimp only
        rw [if_neg hbreak]
        have hne : attempt ≠ config.maxRetries := by
          intro h
          exact hbreak (by simp [h])
        have hretry : shouldRetry e config custom = true := by
          cases hr : shouldRetry e config custom
          · exact absurd (by simp [hr]) hbreak
          · rfl
        have hd0 : min delay config.maxDelayMs = cappedDelay config attempt := by
          have h0 := hdelay 0
          simpa using h0
        have hdelay2 : ∀ j,
            min (min (delay * 2) config.maxDelayMs * 2 ^ j) config.maxDelayMs
              = cappedDelay config (attempt + 1 + j) := by
          intro j
          rw [min_doubling_cap]
          have h2 : delay * 2 * 2 ^ j = delay * 2 ^ (j + 1) := by
            rw [Nat.pow_succ]
            ring
          rw [h2]
          have h3 : attempt + 1 + j = attempt + (j + 1) := by omega
          rw [h3]
          exact hdelay (j + 1)
        obtain ⟨⟨ht1, ht2⟩, htlen, htbounds, hterr, htok⟩ :=
          ih (attempt + 1) (min (delay * 2) config.maxDelayMs)
            (by omega) (by omega) hdelay2
        dsimp only
        refine ⟨⟨by omega, by omega⟩, by simpa using htlen, ?_, ?_, ?_⟩
        · intro k hk
          cases k with
          | zero =>
            have hb := addJitter_bounds (jit attempt)
              (min delay config.maxDelayMs)
              (by rw [hd0]; exact hjit attempt)
            simpa [hd0] using hb
          | succ k =>
            have hk2 : k <
                (retryLoop op config custom jit fuel (attempt + 1)
                  (min (delay * 2) config.maxDelayMs)).sleeps.length := by
              simpa using hk
            have hb := htbounds k hk2
            have hidx : attempt + (k + 1) = attempt + 1 + k := by omega
            rw [hidx]
            simpa using hb
        · intro e2 he2
          have hb := hterr e2 (by simpa using he2)
          have hidx : attempt
              + ((retryLoop op config custom jit fuel (attempt + 1)
                  (min (delay * 2) config.maxDelayMs)).calls + 1) - 1
              = attempt + 1
                + (retryLoop op config custom jit fuel (attempt + 1)
                    (min (delay * 2) config.maxDelayMs)).calls - 1 := by
            omega
          rw [hidx]
          exact hb
        · intro v hv
          have hb := htok v (by simpa using hv)
          have hidx : attempt
              + ((retryLoop op config custom jit fuel (attempt + 1)
                  (min (delay * 2) config.maxDelayMs)).calls + 1) - 1
              = attempt + 1
                + (retryLoop op config custom jit fuel (attempt + 1)
                    (min (delay * 2) config.maxDelayMs)).calls - 1 := by
            omega
          rw [hidx]
          exact hb

/-- C8: `retryWithBackoff` invokes the wrapped operation between 1 and
`maxRetries + 1` times (attempts 0..maxRetries); the failing final or
non-retryable attempt re-raises the last error with no further delay (there
is exactly one sleep per non-final retried failure); and the sleep before
retry `k + 1` is a duration `d` with
`min(baseDelayMs * 2^k, maxDelayMs) ≤ d ≤ 1.2 * min(baseDelayMs * 2^k, maxDelayMs)`
(the upper bound stated integrally as `5 * d ≤ 6 * capped`), the jitter being
an additive sample below 20% of the capped delay. -/
theorem c8_retry_backoff {T : Type} (op : Nat → Except JSError T)
    (config : ErrorHandlingConfig) (custom : Option (JSError → Bool))
    (jit : Nat → Nat)
    (hjit : ∀ k, cappedDelay config k / 5 ≠ 0 →
      jit k < cappedDelay config k / 5) :
    (1 ≤ (retryWithBackoff op config custom jit).calls
      ∧ (retryWithBackoff op config custom jit).calls ≤ config.maxRetries + 1)
    ∧ (retryWithBackoff op config custom jit).sleeps.length + 1
        = (retryWithBackoff op config custom jit).calls
    ∧ (∀ k : Nat,
        k < (retryWithBackoff op config custom jit).sleeps.length →
        cappedDelay config k
            ≤ (retryWithBackoff op config custom jit).sleeps.getD k 0
          ∧ 5 * (retryWithBackoff op config custom jit).sleeps.getD k 0
            ≤ 6 * cappedDelay config k)
    ∧ (∀ e, (retryWithBackoff op config custom jit).outcome
          = Except.error (some e) →
        op ((retryWithBackoff op config custom jit).calls - 1)
            = Except.error e
          ∧ ((retryWithBackoff op config custom jit).calls - 1
                = config.maxRetries
              ∨ shouldRetry e config custom = false))
    ∧ (∀ v, (retryWithBackoff op config custom jit).outcome = Except.ok v →
        op ((retryWithBackoff op config custom jit).calls - 1)
          = Except.ok v) := by
  have h := retryLoop_spec op config custom jit hjit
    (config.maxRetries + 1) 0 config.baseDelayMs
    (by omega) (by omega) (by intro j; simp [cappedDelay])
  simpa [retryWithBackoff] using h

/-- Witness for C8 at a concrete always-retryable failing operation. -/
theorem c8_witness :
    1 ≤ (retryWithBackoff
          (fun _ => (Except.error { code := some "X", name := none }
            : Except JSError Nat))
          { maxRetries := 1, baseDelayMs := 10, maxDelayMs := 30
          , retryableErrorCodes := ["X"] }
          none (fun _ => 0)).calls
    ∧ (retryWithBackoff
        (fun _ => (Except.error { code := some "X", name := none }
          : Except JSError Nat))
        { maxRetries := 1, baseDelayMs := 10, maxDelayMs := 30
        , retryableErrorCodes := ["X"] }
        none (fun _ => 0)).calls
      ≤ ({ maxRetries := 1, baseDelayMs := 10, maxDelayMs := 30
         , retryableErrorCodes := ["X"] } : ErrorHandlingConfig).maxRetries
        + 1 :=
  (c8_retry_backoff
    (fun _ => (Except.error { code := some "X", name := none }
      : Except JSError Nat))
    { maxRetries := 1, baseDelayMs := 10, maxDelayMs := 30
    , retryableErrorCodes := ["X"] }
    none (fun _ => 0)
    (fun _ h => Nat.pos_of_ne_zero h)).1

/-- An observed index mid-creation (backfilling), as DynamoDB reports while
the table itself is already ACTIVE again. -/
def obsBackfilling : GSIInfo :=
  { indexName := "G1"
  , keySchema := [{ attributeName := "PK1", keyType := KeyType.HASH }]
  , projection := { projectionType := ProjectionType.ALL, nonKeyAttributes := none }
  , indexStatus := some "CREATING"
  , provisionedThroughput := none }

/-- C1 counterexample: in the Delete branch the poll handler checks only the
first candidate's status and the table-active probe, so with candidates
`[G0 ACTIVE, G1 CREATING]` and an ACTIVE table it issues the deletion of `G0`
while the resolved candidate `G1` is observed mid-mutation. -/
theorem c1_counterexample :
    (isCompleteRun RequestType.Delete
        { tableName := "T", globalSecondaryIndexes := [], errorHandling := none }
        none
        { gsis := [obsForeign, obsBackfilling], tableActive := true }).mutations
      = [StoreMutation.deleteIdx "G0"]
    ∧ obsBackfilling ∈ (resolveCurrentForPlanning RequestType.Delete
        [obsForeign, obsBackfilling]
        (handlerManagedNames RequestType.Delete
          { tableName := "T", globalSecondaryIndexes := [], errorHandling := none }
          none)).candidates
    ∧ inFlight obsBackfilling = true := by
  refine ⟨rfl, by decide, rfl⟩

/-- C1 amended: the Create/Update branch of the poll handler never issues a
store mutation while any resolved candidate is observed mid-mutation
(CREATING, UPDATING or DELETING); the Delete branch guards only on the first
candidate not being DELETING and the table-active probe, and then issues
exactly that first candidate's deletion. -/
theorem c1_single_in_flight :
    (∀ (requestType : RequestType) (props : GSIManagerProps)
        (oldProps : Option GSIManagerProps) (s : Snapshot),
      (requestType = RequestType.Create ∨ requestType = RequestType.Update) →
      (isCompleteRun requestType props oldProps s).mutations ≠ [] →
      ∀ g ∈ (resolveCurrentForPlanning requestType s.gsis
          (handlerManagedNames requestType props oldProps)).candidates,
        inFlight g = false)
    ∧ (∀ (props : GSIManagerProps) (oldProps : Option GSIManagerProps)
        (s : Snapshot),
      (isCompleteRun RequestType.Delete props oldProps s).mutations ≠ [] →
      isTableActive s = true
      ∧ ∃ g rest,
          (resolveCurrentForPlanning RequestType.Delete s.gsis
            (handlerManagedNames RequestType.Delete props oldProps)).candidates
            = g :: rest
          ∧ g.indexStatus ≠ some "DELETING"
          ∧ (isCompleteRun RequestType.Delete props oldProps s).mutations
              = [StoreMutation.deleteIdx g.indexName]) := by
  constructor
  · intro requestType props oldProps s hrt hmut
    have hne : ¬(requestType = RequestType.Delete) := by
      rcases hrt with rfl | rfl <;> decide
    unfold isCompleteRun at hmut
    rw [if_neg hne] at hmut
    cases hfind : (resolveCurrentForPlanning requestType s.gsis
        (handlerManagedNames requestType props oldProps)).candidates.find?
        inFlight with
    | some g =>
      rw [hfind] at hmut
      exact absurd rfl hmut
    | none =>
      intro g hg
      have := List.find?_eq_none.mp hfind g hg
      exact Bool.not_eq_true _ |>.mp this
  · intro props oldProps s hmut
    unfold isCompleteRun at hmut
    rw [if_pos rfl] at hmut
    cases hc : (resolveCurrentForPlanning RequestType.Delete s.gsis
        (handlerManagedNames RequestType.Delete props oldProps)).candidates with
    | nil =>
      rw [hc] at hmut
      exact absurd rfl hmut
    | cons g rest =>
      rw [hc] at hmut
      unfold isCompleteDeleteBranch at hmut
      dsimp only at hmut
      by_cases hdel : isGSIInStatus s g.indexName TargetStatus.DELETED = true
      · rw [if_pos hdel] at hmut
        by_cases hrest : rest.length + 1 > 1
        · rw [if_pos hrest] at hmut
          exact absurd rfl hmut
        · rw [if_neg hrest] at hmut
          exact absurd rfl hmut
      · rw [if_neg hdel] at hmut
        by_cases hstat : g.indexStatus ≠ some "DELETING"
        · rw [if_pos hstat] at hmut
          by_cases hact : isTableActive s = true
          · rw [if_pos hact] at hmut
            refine ⟨hact, g, rest, rfl, hstat, ?_⟩
            unfold isCompleteRun
            rw [if_pos rfl, hc]
            unfold isCompleteDeleteBranch
            dsimp only
            rw [if_neg hdel, if_pos hstat, if_pos hact]
          · rw [if_neg hact] at hmut
            exact absurd rfl hmut
        · rw [if_neg hstat] at hmut
          exact absurd rfl hmut

/-- Properties declaring exactly scenario 1's single index. -/
def propsGsi1 : GSIManagerProps :=
  { tableName := "T", globalSecondaryIndexes := [gsi1Cfg], errorHandling := none }

/-- Witness for C1's amended theorem: a Create poll on an empty table issues
the first CREATE, and indeed no resolved candidate is in flight. -/
theorem c1_witness :
    ∀ g ∈ (resolveCurrentForPlanning RequestType.Create
        ({ gsis := [], tableActive := true } : Snapshot).gsis
        (handlerManagedNames RequestType.Create propsGsi1 none)).candidates,
      inFlight g = false :=
  c1_single_in_flight.1 RequestType.Create propsGsi1 none
    { gsis := [], tableActive := true } (Or.inl rfl) (by decide)

/-- Properties declaring the same index name twice (invalid: duplicate). -/
def propsDupG : GSIManagerProps :=
  { tableName := "T"
  , globalSecondaryIndexes := [gsi1Cfg, gsi1Cfg]
  , errorHandling := none }

/-- C4 counterexample: the poll entry point performs no validation — on a
configuration with a duplicate index name it issues a CREATE store mutation
and reports no error, instead of failing fatally before any mutation. -/
theorem c4_counterexample :
    validateGsiConfigurations propsDupG.globalSecondaryIndexes ≠ []
    ∧ (isCompleteRun RequestType.Create propsDupG none
        { gsis := [], tableActive := true }).mutations
      = [StoreMutation.createIdx gsi1Cfg]
    ∧ (isCompleteRun RequestType.Create propsDupG none
        { gsis := [], tableActive := true }).error = none := by
  refine ⟨by decide, rfl, rfl⟩

/-- C4 amended: the start entry point (`onEventHandler`) fails fatally on
Create and Update before issuing any store mutation whenever the declared
configuration has validation problems, with a message listing every problem
found; the poll entry point (`isCompleteHandler`) performs no validation (and
the start entry point's Delete path does not validate either). -/
theorem c4_validation :
    ∀ (requestType : RequestType) (props : GSIManagerProps)
      (oldProps : Option GSIManagerProps) (s : Snapshot),
      (requestType = RequestType.Create ∨ requestType = RequestType.Update) →
      validateGsiConfigurations props.globalSecondaryIndexes ≠ [] →
      (onEventRun requestType props oldProps s).mutations = []
      ∧ (onEventRun requestType props oldProps s).error
          = some (validationErrorMessage
              (validateGsiConfigurations props.globalSecondaryIndexes))
      ∧ (onEventRun requestType props oldProps s).isComplete = none := by
  intro requestType props oldProps s hrt hval
  have hne : ¬(requestType = RequestType.Delete) := by
    rcases hrt with rfl | rfl <;> decide
  have hempty :
      ¬((validateGsiConfigurations props.globalSecondaryIndexes).isEmpty
        = true) := by
    intro h
    exact hval (List.isEmpty_iff.mp h)
  unfold onEventRun
  rw [if_neg hne, if_neg hempty]
  exact ⟨rfl, rfl, rfl⟩

/-- Witness for C4's amended theorem at the duplicate-name configuration. -/
theorem c4_witness :
    (onEventRun RequestType.Create propsDupG none
        { gsis := [], tableActive := true }).mutations = []
    ∧ (onEventRun RequestType.Create propsDupG none
        { gsis := [], tableActive := true }).error
        = some (validationErrorMessage
            (validateGsiConfigurations propsDupG.globalSecondaryIndexes))
    ∧ (onEventRun RequestType.Create propsDupG none
        { gsis := [], tableActive := true }).isComplete = none :=
  c4_validation RequestType.Create propsDupG none
    { gsis := [], tableActive := true } (Or.inl rfl) (by decide)

/-- The observed indexes carrying a given name, in listing order. -/
def restrictName (n : String) (st : List GSIInfo) : List GSIInfo :=
  st.filter (fun g => g.indexName = n)

/-- A list always equals itself ignoring order. -/
theorem arraysEqualIgnoreOrder_refl (l : List String) :
    arraysEqualIgnoreOrder l l = true := by
  unfold arraysEqualIgnoreOrder
  rw [Bool.and_eq_true, decide_eq_true_eq, List.all_eq_true]
  exact ⟨rfl, fun x hx => List.elem_iff.mpr hx⟩

/-- The `keySchemaChanged` reads the observed index only through its key
schema. -/
theorem keySchemaChanged_congr {info info2 : GSIInfo} (c : GSIConfiguration)
    (h : info.keySchema = info2.keySchema) :
    keySchemaChanged info c = keySchemaChanged info2 c := by
  unfold keySchemaChanged toKeySchemaMap
  rw [h]

/-- The `projectionChanged` reads the observed index only through its
projection. -/
theorem projectionChanged_congr {info info2 : GSIInfo} (c : GSIConfiguration)
    (h : info.projection = info2.projection) :
    projectionChanged info c = projectionChanged info2 c := by
  unfold projectionChanged
  rw [h]

/-- A well-formed configuration's materialized index is seen as unchanged by
all three planner predicates. -/
theorem configToInfo_converged {c : GSIConfiguration} (hwf : wfConfig c = true) :
    keySchemaChanged (configToInfo c) c = false
    ∧ projectionChanged (configToInfo c) c = false
    ∧ shouldUpdateThroughput (configToInfo c) c = false := by
  refine ⟨?_, ?_, ?_⟩
  · unfold keySchemaChanged toKeySchemaMap configToInfo materializeKeySchema
    cases hsk : c.sortKey with
    | none =>
      simp [insertKeySchema, List.lookup]
    | some sk =>
      have hne : sk.name ≠ c.partitionKey.name := by
        unfold wfConfig at hwf
        rw [hsk] at hwf
        simpa using hwf
      have hne2 : ¬(c.partitionKey.name = sk.name) := fun h => hne h.symm
      simp [insertKeySchema, List.lookup, hne2, List.find?]
  · unfold projectionChanged configToInfo materializeProjection
    dsimp only
    by_cases hinc : c.projectionType.getD ProjectionType.ALL
        = ProjectionType.INCLUDE
    · rw [if_neg (by simp), if_pos hinc]
      by_cases hempty : (c.nonKeyAttributes.getD []).isEmpty = true
      · rw [if_neg (show ¬((decide (c.projectionType.getD ProjectionType.ALL
              = ProjectionType.INCLUDE)
            && !(c.nonKeyAttributes.getD []).isEmpty) = true) by
            simp [hempty])]
        have hl : c.nonKeyAttributes.getD [] = [] := by
          simpa [List.isEmpty_iff] using hempty
        simp [hl, arraysEqualIgnoreOrder_refl]
      · rw [if_pos (show (decide (c.projectionType.getD ProjectionType.ALL
              = ProjectionType.INCLUDE)
            && !(c.nonKeyAttributes.getD []).isEmpty) = true by
            simp [hinc, hempty])]
        cases hnk : c.nonKeyAttributes with
        | none => simp [hnk] at hempty
        | some l => simp [hnk, arraysEqualIgnoreOrder_refl]
    · rw [if_neg (by simp), if_neg hinc]
  · unfold shouldUpdateThroughput configToInfo
    dsimp only
    cases hp : c.provisionedThroughput with
    | none => rfl
    | some dt => simp

/-- Rewriting an index's provisioned throughput to the desired value makes
the throughput predicate false, whatever the desired configuration asks. -/
theorem shouldUpdateThroughput_after_update (e : GSIInfo)
    (c : GSIConfiguration) :
    shouldUpdateThroughput
        { e with provisionedThroughput := c.provisionedThroughput } c
      = false := by
  unfold shouldUpdateThroughput
  cases hp : c.provisionedThroughput with
  | none => rfl
  | some dt => simp

/-- A CREATE operation's payload carries the operation's index name (true of
every operation the planner emits). -/
def opCreateNameOk (op : GSIOperation) : Prop :=
  ∀ cfg, op.type = GSIOperationType.CREATE →
    op.desiredConfiguration = some cfg → cfg.indexName = op.indexName

/-- Applying one operation commutes with restricting the state to one index
name: an operation on another name leaves the restriction untouched. -/
theorem restrict_applyOperation (n : String) (st : List GSIInfo)
    (op : GSIOperation) (hop : opCreateNameOk op) :
    restrictName n (applyOperation st op)
      = if op.indexName = n then applyOperation (restrictName n st) op
        else restrictName n st := by
  unfold restrictName applyOperation
  cases htype : op.type with
  | DELETE =>
    dsimp only
    rw [List.filter_filter]
    by_cases hn : op.indexName = n
    · rw [if_pos hn, List.filter_filter]
      exact List.filter_congr (fun g _ => Bool.and_comm _ _)
    · rw [if_neg hn]
      refine List.filter_congr (fun g _ => ?_)
      by_cases hg : g.indexName = n
      · have hq : ¬(n = op.indexName) := fun h => hn h.symm
        simp [hg, hq]
      · simp [hg]
  | CREATE =>
    cases hd : op.desiredConfiguration with
    | none =>
      dsimp only
      by_cases hn : op.indexName = n
      · rw [if_pos hn]
      · rw [if_neg hn]
    | some cfg =>
      dsimp only
      rw [List.filter_append]
      have hname : (configToInfo cfg).indexName = op.indexName :=
        hop cfg htype hd
      by_cases hn : op.indexName = n
      · rw [if_pos hn, List.filter_cons]
        rw [if_pos (by simp [hname, hn])]
        rfl
      · rw [if_neg hn, List.filter_cons]
        rw [if_neg (by simp [hname, hn])]
        simp
  | UPDATE =>
    cases hd : op.desiredConfiguration with
    | none =>
      dsimp only
      by_cases hn : op.indexName = n
      · rw [if_pos hn]
      · rw [if_neg hn]
    | some cfg =>
      dsimp only
      rw [List.filter_map]
      have hpres : ∀ g : GSIInfo,
          (if g.indexName = op.indexName then
            { g with provisionedThroughput := cfg.provisionedThroughput }
          else g).indexName = g.indexName := by
        intro g
        by_cases hg : g.indexName = op.indexName
        · rw [if_pos hg]
        · rw [if_neg hg]
      have hfc : List.filter
          ((fun g : GSIInfo => decide (g.indexName = n)) ∘
            (fun g => if g.indexName = op.indexName then
              { g with provisionedThroughput := cfg.provisionedThroughput }
            else g)) st
          = List.filter (fun g : GSIInfo => decide (g.indexName = n)) st := by
        refine List.filter_congr (fun g _ => ?_)
        simp only [Function.comp_apply, hpres g]
      rw [hfc]
      by_cases hn : op.indexName = n
      · rw [if_pos hn]
      · rw [if_neg hn]
        have hid : ∀ g ∈ List.filter
            (fun g : GSIInfo => decide (g.indexName = n)) st,
            (if g.indexName = op.indexName then
              { g with provisionedThroughput := cfg.provisionedThroughput }
            else g) = g := by
          intro g hg
          rw [List.mem_filter] at hg
          have hgn : g.indexName = n := of_decide_eq_true hg.2
          rw [if_neg (by rw [hgn]; exact fun h => hn h.symm)]
        have hcongr := List.map_congr_left hid
        rw [hcongr]
        simp

/-- Applying a whole plan commutes with restricting the state to one name:
only the same-named operations act on the restriction. -/
theorem restrict_applyPlan (n : String) :
    ∀ (ops : List GSIOperation) (st : List GSIInfo),
      (∀ op ∈ ops, opCreateNameOk op) →
      restrictName n (applyPlan st ops)
        = applyPlan (restrictName n st)
            (ops.filter (fun op => op.indexName = n)) := by
  intro ops
  induction ops with
  | nil => intro st _; rfl
  | cons op rest ih =>
    intro st hops
    have hop := hops op (List.mem_cons_self op rest)
    have hrest : ∀ o ∈ rest, opCreateNameOk o :=
      fun o ho => hops o (List.mem_cons_of_mem op ho)
    unfold applyPlan
    rw [List.foldl_cons, List.filter_cons]
    by_cases hn : op.indexName = n
    · rw [if_pos (by simp [hn])]
      have := ih (applyOperation st op) hrest
      unfold applyPlan at this
      rw [this, restrict_applyOperation n st op hop, if_pos hn,
        List.foldl_cons]
    · rw [if_neg (by simp [hn])]
      have := ih (applyOperation st op) hrest
      unfold applyPlan at this
      rw [this, restrict_applyOperation n st op hop, if_neg hn]

/-- Every operation the specification-shaped plan emits carries its CREATE
payload under its own name. -/
theorem planSpec_opCreateNameOk {current : List GSIInfo}
    {desired : List GSIConfiguration} {op : GSIOperation}
    (h : op ∈ planSpec current desired) : opCreateNameOk op := by
  unfold planSpec at h
  rw [List.mem_append] at h
  cases h with
  | inl hdel =>
    obtain ⟨htype, _, _, _⟩ := planDeletions_shapes hdel
    intro cfg htype2 _
    rw [htype] at htype2
    cases htype2
  | inr hent =>
    rw [List.mem_flatMap] at hent
    obtain ⟨c, _, hop⟩ := hent
    obtain ⟨hname, hshape⟩ := planEntry_shapes hop
    rcases hshape with ⟨htype, hdes, _⟩ | ⟨htype, _, _⟩ | ⟨htype, _, _⟩
    · intro cfg _ hd
      rw [hdes] at hd
      cases hd
      exact hname.symm
    · intro cfg htype2 _
      rw [htype] at htype2
      cases htype2
    · intro cfg htype2 _
      rw [htype] at htype2
      cases htype2

/-- Restricting the plan to a name absent from the desired list leaves
exactly one DELETE per same-named current index. -/
theorem planSpec_filter_not_desired (current : List GSIInfo)
    (desired : List GSIConfiguration) (n : String)
    (hn : desired.any (fun d => d.indexName = n) = false) :
    (planSpec current desired).filter (fun op => op.indexName = n)
      = (restrictName n current).map
          (fun g =>
            { type := GSIOperationType.DELETE
            , indexName := g.indexName
            , desiredConfiguration := none
            , currentConfiguration := some g }) := by
  unfold planSpec
  rw [List.filter_append]
  have h2 : (desired.flatMap (fun config => planEntry current config)).filter
      (fun op => op.indexName = n) = [] := by
    refine List.filter_eq_nil_iff.mpr (fun op hop hpn => ?_)
    rw [List.mem_flatMap] at hop
    obtain ⟨c, hc, hop2⟩ := hop
    have hname := (planEntry_shapes hop2).1
    have hcn : c.indexName = n := by
      rw [← hname]
      exact of_decide_eq_true hpn
    have : desired.any (fun d => d.indexName = n) = true :=
      List.any_eq_true.mpr ⟨c, hc, by simp [hcn]⟩
    rw [hn] at this
    cases this
  rw [h2, List.append_nil]
  unfold planDeletions restrictName
  rw [List.filter_map, List.filter_filter]
  refine congrArg _ (List.filter_congr (fun g _ => ?_))
  by_cases hg : g.indexName = n
  · simp [hg, hn]
  · simp [hg]

/-- Restricting the flat-mapped per-entry operations to one declared name
(unique in the declaration) leaves exactly that entry's operations. -/
theorem flatMap_planEntry_filter (current : List GSIInfo) :
    ∀ (desired : List GSIConfiguration) (c : GSIConfiguration),
      c ∈ desired → (desired.map (fun d => d.indexName)).Nodup →
      (desired.flatMap (fun config => planEntry current config)).filter
          (fun op => op.indexName = c.indexName)
        = planEntry current c := by
  intro desired
  induction desired with
  | nil =>
    intro c hc
    cases hc
  | cons d ds ih =>
    intro c hc hnd
    rw [List.map_cons, List.nodup_cons] at hnd
    rw [List.flatMap_cons, List.filter_append]
    rcases List.mem_cons.mp hc with rfl | hc2
    · have h1 : (planEntry current c).filter
          (fun op => op.indexName = c.indexName) = planEntry current c := by
        refine List.filter_eq_self.mpr (fun op hop => ?_)
        simp [(planEntry_shapes hop).1]
      have h2 : (ds.flatMap (fun config => planEntry current config)).filter
          (fun op => op.indexName = c.indexName) = [] := by
        refine List.filter_eq_nil_iff.mpr (fun op hop hpn => ?_)
        rw [List.mem_flatMap] at hop
        obtain ⟨e, he, hop2⟩ := hop
        have hname := (planEntry_shapes hop2).1
        refine hnd.1 ?_
        rw [List.mem_map]
        refine ⟨e, he, ?_⟩
        rw [hname] at hpn
        exact of_decide_eq_true hpn
      rw [h1, h2, List.append_nil]
    · have hdc : ¬(d.indexName = c.indexName) := by
        intro h
        refine hnd.1 ?_
        rw [h, List.mem_map]
        exact ⟨c, hc2, rfl⟩
      have h1 : (planEntry current d).filter
          (fun op => op.indexName = c.indexName) = [] := by
        refine List.filter_eq_nil_iff.mpr (fun op hop hpn => ?_)
        have hname := (planEntry_shapes hop).1
        rw [hname] at hpn
        exact hdc (of_decide_eq_true hpn)
      rw [h1, List.nil_append]
      exact ih c hc2 hnd.2

/-- Restricting the plan to one declared name (unique in the declaration)
leaves exactly that entry's operations. -/
theorem planSpec_filter_desired (current : List GSIInfo)
    (desired : List GSIConfiguration) (c : GSIConfiguration)
    (hc : c ∈ desired)
    (hnd : (desired.map (fun d => d.indexName)).Nodup) :
    (planSpec current desired).filter (fun op => op.indexName = c.indexName)
      = planEntry current c := by
  unfold planSpec
  rw [List.filter_append]
  have h1 : (planDeletions current desired).filter
      (fun op => op.indexName = c.indexName) = [] := by
    refine List.filter_eq_nil_iff.mpr (fun op hop hpn => ?_)
    obtain ⟨_, _, _, hany⟩ := planDeletions_shapes hop
    have : desired.any (fun d => d.indexName = op.indexName) = true := by
      refine List.any_eq_true.mpr ⟨c, hc, ?_⟩
      simp [of_decide_eq_true hpn]
    rw [hany] at this
    cases this
  rw [h1, List.nil_append]
  exact flatMap_planEntry_filter current desired c hc hnd

/-- Applying only DELETE operations to an empty state keeps it empty. -/
theorem applyPlan_nil_deletes :
    ∀ ops : List GSIOperation,
      (∀ op ∈ ops, op.type = GSIOperationType.DELETE) →
      applyPlan [] ops = [] := by
  intro ops
  induction ops with
  | nil => intro _; rfl
  | cons op rest ih =>
    intro h
    unfold applyPlan
    rw [List.foldl_cons]
    have hop := h op (List.mem_cons_self op rest)
    have : applyOperation [] op = [] := by
      unfold applyOperation
      rw [hop]
      rfl
    rw [this]
    exact ih (fun o ho => h o (List.mem_cons_of_mem op ho))

/-- Deleting every index of a uniformly-named state, one delete per entry,
empties it. -/
theorem applyPlan_delete_all (n : String) :
    ∀ X : List GSIInfo, (∀ g ∈ X, g.indexName = n) →
      applyPlan X (X.map
        (fun g =>
          { type := GSIOperationType.DELETE
          , indexName := g.indexName
          , desiredConfiguration := none
          , currentConfiguration := some g })) = [] := by
  intro X
  cases X with
  | nil => intro _; rfl
  | cons x xs =>
    intro h
    unfold applyPlan
    rw [List.map_cons, List.foldl_cons]
    have h1 : applyOperation (x :: xs)
        { type := GSIOperationType.DELETE
        , indexName := x.indexName
        , desiredConfiguration := none
        , currentConfiguration := some x } = [] := by
      unfold applyOperation
      dsimp only
      refine List.filter_eq_nil_iff.mpr (fun g hg hne => ?_)
      have hgn : g.indexName = n := h g hg
      have hxn : x.indexName = n := h x (List.mem_cons_self x xs)
      exact absurd (hgn.trans hxn.symm) (of_decide_eq_true hne)
    rw [h1]
    exact applyPlan_nil_deletes (xs.map _)
      (by
        intro op hop
        rw [List.mem_map] at hop
        obtain ⟨g, _, rfl⟩ := hop
        rfl)

/-- After one full plan application, no index with a name outside the desired
list survives. -/
theorem restrict_final_not_desired (current : List GSIInfo)
    (desired : List GSIConfiguration) (n : String)
    (hn : desired.any (fun d => d.indexName = n) = false) :
    restrictName n (applyPlan current (planSpec current desired)) = [] := by
  rw [restrict_applyPlan n (planSpec current desired) current
    (fun op hop => planSpec_opCreateNameOk hop)]
  rw [planSpec_filter_not_desired current desired n hn]
  exact applyPlan_delete_all n (restrictName n current)
    (fun g hg => of_decide_eq_true (List.mem_filter.mp hg).2)

/-- After one full plan application, each declared entry's name resolves to
an index all three change predicates consider converged. -/
theorem restrict_final_desired (current : List GSIInfo)
    (desired : List GSIConfiguration) (c : GSIConfiguration)
    (hc : c ∈ desired)
    (hnd : (desired.map (fun d => d.indexName)).Nodup)
    (hwf : wfConfig c = true) :
    ∃ info,
      (restrictName c.indexName
          (applyPlan current (planSpec current desired))).getLast? = some info
      ∧ keySchemaChanged info c = false
      ∧ projectionChanged info c = false
      ∧ shouldUpdateThroughput info c = false := by
  rw [restrict_applyPlan c.indexName (planSpec current desired) current
    (fun op hop => planSpec_opCreateNameOk hop)]
  rw [planSpec_filter_desired current desired c hc hnd]
  have hRlast : latestNamed current c.indexName
      = (restrictName c.indexName current).getLast? := rfl
  unfold planEntry
  cases hl : latestNamed current c.indexName with
  | none =>
    have hRnil : restrictName c.indexName current = [] := by
      rw [hRlast] at hl
      exact List.getLast?_eq_none_iff.mp hl
    rw [hRnil]
    refine ⟨configToInfo c, rfl, ?_, ?_, ?_⟩
    · exact (configToInfo_converged hwf).1
    · exact (configToInfo_converged hwf).2.1
    · exact (configToInfo_converged hwf).2.2
  | some e =>
    dsimp only
    have hename : e.indexName = c.indexName := latestNamed_name hl
    by_cases hch : (keySchemaChanged e c || projectionChanged e c) = true
    · rw [if_pos hch]
      have hdel : applyOperation (restrictName c.indexName current)
          { type := GSIOperationType.DELETE
          , indexName := e.indexName
          , desiredConfiguration := none
          , currentConfiguration := some e } = [] := by
        unfold applyOperation
        dsimp only
        refine List.filter_eq_nil_iff.mpr (fun g hg hne => ?_)
        have hgn : g.indexName = c.indexName :=
          of_decide_eq_true (List.mem_filter.mp hg).2
        exact absurd (hgn.trans hename.symm) (of_decide_eq_true hne)
      unfold applyPlan
      rw [List.foldl_cons, hdel, List.foldl_cons]
      refine ⟨configToInfo c, rfl, ?_, ?_, ?_⟩
      · exact (configToInfo_converged hwf).1
      · exact (configToInfo_converged hwf).2.1
      · exact (configToInfo_converged hwf).2.2
    · rw [if_neg hch]
      rw [Bool.or_eq_true] at hch
      push_neg at hch
      have hks : keySchemaChanged e c = false :=
        Bool.not_eq_true _ |>.mp hch.1
      have hpj : projectionChanged e c = false :=
        Bool.not_eq_true _ |>.mp hch.2
      by_cases ht : shouldUpdateThroughput e c = true
      · rw [if_pos ht]
        unfold applyPlan applyOperation
        rw [List.foldl_cons, List.foldl_nil]
        dsimp only
        rw [List.getLast?_map, ← hRlast, hl]
        refine ⟨_, rfl, ?_, ?_, ?_⟩
        · dsimp only
          rw [if_pos hename]
          rw [keySchemaChanged_congr c (by rfl)]
          exact hks
        · dsimp only
          rw [if_pos hename]
          rw [projectionChanged_congr c (by rfl)]
          exact hpj
        · dsimp only
          rw [if_pos hename]
          exact shouldUpdateThroughput_after_update e c
      · rw [if_neg ht]
        unfold applyPlan
        rw [List.foldl_nil, ← hRlast, hl]
        exact ⟨e, rfl, hks, hpj, Bool.not_eq_true _ |>.mp ht⟩

/-- A flat map over blocks that all vanish is empty. -/
theorem flatMap_nil_of {α β : Type} (f : α → List β) :
    ∀ l : List α, (∀ x ∈ l, f x = []) → l.flatMap f = [] := by
  intro l
  induction l with
  | nil => intro _; rfl
  | cons x xs ih =>
    intro h
    rw [List.flatMap_cons, h x (List.mem_cons_self x xs), List.nil_append]
    exact ih (fun y hy => h y (List.mem_cons_of_mem x hy))

/-- One full application of the specification-shaped plan reaches a state the
planner considers converged. -/
theorem planSpec_converges (current : List GSIInfo)
    (desired : List GSIConfiguration) (hwf : wfDesired desired) :
    planSpec (applyPlan current (planSpec current desired)) desired = [] := by
  obtain ⟨hwfc, hnd⟩ := hwf
  have hdel : planDeletions
      (applyPlan current (planSpec current desired)) desired = [] := by
    unfold planDeletions
    have hf : List.filter
        (fun g => !desired.any (fun d => d.indexName = g.indexName))
        (applyPlan current (planSpec current desired)) = [] := by
      refine List.filter_eq_nil_iff.mpr (fun g hg hkeep => ?_)
      have hany : desired.any (fun d => d.indexName = g.indexName) = false := by
        cases h2 : desired.any (fun d => d.indexName = g.indexName)
        · rfl
        · rw [h2] at hkeep
          cases hkeep
      have hnil := restrict_final_not_desired current desired g.indexName hany
      have hmem : g ∈ restrictName g.indexName
          (applyPlan current (planSpec current desired)) :=
        List.mem_filter.mpr ⟨hg, by simp⟩
      rw [hnil] at hmem
      cases hmem
    rw [hf]
    rfl
  have hent : ∀ c ∈ desired,
      planEntry (applyPlan current (planSpec current desired)) c = [] := by
    intro c hc
    obtain ⟨info, hlast, hks, hpj, ht⟩ :=
      restrict_final_desired current desired c hc hnd (hwfc c hc)
    unfold planEntry
    have hlat : latestNamed (applyPlan current (planSpec current desired))
        c.indexName = some info := hlast
    rw [hlat]
    dsimp only
    rw [if_neg (show ¬((keySchemaChanged info c || projectionChanged info c)
        = true) by simp [hks, hpj])]
    rw [if_neg (show ¬(shouldUpdateThroughput info c = true) by simp [ht])]
  have hflat := flatMap_nil_of
    (fun config => planEntry (applyPlan current (planSpec current desired)) config)
    desired hent
  show planDeletions (applyPlan current (planSpec current desired)) desired
    ++ desired.flatMap
        (fun config =>
          planEntry (applyPlan current (planSpec current desired)) config)
    = []
  rw [hdel, hflat]
  rfl

/-- A desired configuration whose sort key reuses the partition key's
attribute name: the store materializes it as a RANGE-only schema map, which
the planner then always sees as changed. -/
def badCfg : GSIConfiguration :=
  { indexName := "G"
  , partitionKey := { name := "A", type := AttributeTypeCode.S }
  , sortKey := some { name := "A", type := AttributeTypeCode.S }
  , projectionType := none
  , nonKeyAttributes := none
  , provisionedThroughput := none }

/-- C6 counterexample: for the degenerate (never rejected by validation)
configuration whose sort key names the partition key's attribute, simulating
the plan and re-planning does not reach zero operations within
`|D| + |removed| = 1` plan cycles — the planner keeps recreating the index
forever. -/
theorem c6_counterexample :
    planGsiOperations
        (applyPlan [] (planGsiOperations [] [badCfg])) [badCfg] ≠ []
    ∧ ([badCfg] : List GSIConfiguration).length + removedCount [] [badCfg]
        = 1 := by
  refine ⟨by decide, rfl⟩

/-- C6 amended: for desired lists whose entries are well-formed (sort key
distinct from partition key) with pairwise-distinct names, one application of
the planned operations re-plans to the empty list (hence convergence within
the claimed `|D| + |removed|` cycles, that sum being at least 1 whenever any
operation was planned), and the planner never emits a DELETE or CREATE — only
possibly an UPDATE — for a desired index whose looked-up current index
already carries its materialized key schema and projection. -/
theorem c6_convergence :
    ∀ (current : List GSIInfo) (desired : List GSIConfiguration),
      wfDesired desired →
      planGsiOperations
          (applyPlan current (planGsiOperations current desired)) desired = []
      ∧ (planGsiOperations current desired = []
          ∨ 1 ≤ desired.length + removedCount current desired)
      ∧ (∀ c ∈ desired, ∀ info,
          latestNamed current c.indexName = some info →
          info.keySchema = materializeKeySchema c →
          info.projection = materializeProjection c →
          ∀ op ∈ planGsiOperations current desired,
            op.indexName = c.indexName → op.type = GSIOperationType.UPDATE) := by
  intro current desired hwf
  refine ⟨?_, ?_, ?_⟩
  · rw [planGsiOperations_eq_planSpec, planGsiOperations_eq_planSpec]
    exact planSpec_converges current desired hwf
  · by_cases hp : planGsiOperations current desired = []
    · exact Or.inl hp
    · right
      by_contra hlen
      push_neg at hlen
      have hdes : desired = [] := by
        cases desired with
        | nil => rfl
        | cons d ds => simp at hlen
      have hrem : removedCount current desired = 0 := by omega
      refine hp ?_
      rw [planGsiOperations_eq_planSpec]
      unfold planSpec
      have h1 : planDeletions current desired = [] := by
        have : (planDeletions current desired).length = 0 := by
          unfold planDeletions
          rw [List.length_map]
          exact hrem
        exact List.length_eq_zero.mp this
      rw [h1, hdes]
      rfl
  · intro c hc info hlat hkseq hpeq op hop hname
    have hwfc := hwf.1 c hc
    have hmem : op ∈ (planSpec current desired).filter
        (fun o => o.indexName = c.indexName) := by
      rw [← planGsiOperations_eq_planSpec]
      exact List.mem_filter.mpr ⟨hop, by simp [hname]⟩
    rw [planSpec_filter_desired current desired c hc hwf.2] at hmem
    unfold planEntry at hmem
    rw [hlat] at hmem
    dsimp only at hmem
    have hks : keySchemaChanged info c = false := by
      rw [keySchemaChanged_congr c (show info.keySchema
        = (configToInfo c).keySchema from hkseq)]
      exact (configToInfo_converged hwfc).1
    have hpj : projectionChanged info c = false := by
      rw [projectionChanged_congr c (show info.projection
        = (configToInfo c).projection from hpeq)]
      exact (configToInfo_converged hwfc).2.1
    rw [if_neg (show ¬((keySchemaChanged info c || projectionChanged info c)
        = true) by simp [hks, hpj])] at hmem
    by_cases ht : shouldUpdateThroughput info c = true
    · rw [if_pos ht] at hmem
      rw [List.mem_singleton] at hmem
      rw [hmem]
    · rw [if_neg ht] at hmem
      cases hmem

/-- Witness for C6's amended theorem at a concrete removal-plus-create
scenario. -/
theorem c6_witness :
    planGsiOperations
        (applyPlan [obsForeign]
          (planGsiOperations [obsForeign] [gsi1Cfg])) [gsi1Cfg] = [] :=
  (c6_convergence [obsForeign] [gsi1Cfg] (by refine ⟨?_, ?_⟩ <;> decide)).1
